import Mathlib

/-!
Shallow embedding of the zeropoint-agent core: the StateStore
(git-backed intent/reality branches plus a sqlite cache), the Executor
(six-phase reconcile pipeline), and the resource Commands
(disk / mount / path).  Translated from
src/zeropoint_agent/state_store.py, executor.py and commands/.
-/

/-- A JSON-ish scalar value as stored in export rows and in the sqlite
cache.  Python None / SQL NULL is modelled by null. -/
inductive JVal where
  | s (v : String)
  | i (v : Int)
  | null
deriving DecidableEq, Repr

/-- A resource row: a Python dict, modelled as an association list that
keeps key order (Python dicts preserve insertion order). -/
abbrev Row := List (String × JVal)

/-- Python truthiness of a value: None, empty string and 0 are falsy. -/
def jvalTruthy : JVal → Bool
  | .s v => v ≠ ""
  | .i v => v ≠ 0
  | .null => false

/-- String rendering as used in f-string interpolation of values. -/
def jvalStr : JVal → String
  | .s v => v
  | .i v => toString v
  | .null => "None"

/-- Total order used for ORDER BY id: SQL NULL sorts first, integers
before text, text by lexicographic comparison. -/
def jvalLe : JVal → JVal → Bool
  | .null, _ => true
  | _, .null => false
  | .i a, .i b => a ≤ b
  | .i _, .s _ => true
  | .s _, .i _ => false
  | .s a, .s b => compare a b ≠ Ordering.gt

/-- resource.get(key): None when the key is absent. -/
def pyGet (r : Row) (k : String) : JVal :=
  (List.lookup k r).getD JVal.null

/-- resource.get(key, default): the default only when the key is absent. -/
def pyGetD (r : Row) (k : String) (d : JVal) : JVal :=
  (List.lookup k r).getD d

/-- Python dict assignment on an association list: update the first
binding in place, else append (insertion order preserved). -/
def setTable {α : Type} (l : List (String × α)) (k : String) (v : α) :
    List (String × α) :=
  if (List.lookup k l).isSome then
    l.map (fun kv => if kv.1 == k then (k, v) else kv)
  else l ++ [(k, v)]

/-- A column of the sqlite schema in state_store.py: name, NOT NULL
flag, and its default (no default, DEFAULT CURRENT_TIMESTAMP, or a
constant default such as DEFAULT 0755). -/
inductive ColDflt where
  | none
  | ts
  | val (v : JVal)
deriving DecidableEq, Repr

structure Col where
  name : String
  notNull : Bool
  dflt : ColDflt
deriving DecidableEq, Repr

/-- The table names, in EXPORT_FILES order (state_store.py). -/
def tableNames : List String :=
  ["disks", "mounts", "paths", "vars", "modules", "links", "exposures"]

/-- The sqlite schema of state_store.py (created_at columns default to
CURRENT_TIMESTAMP; paths.mode defaults to the string 0755; modules.enabled
defaults to 1). -/
def schemaOf : String → List Col
  | "disks" =>
      [⟨"id", false, .none⟩, ⟨"device", true, .none⟩,
       ⟨"partition", false, .none⟩, ⟨"filesystem", false, .none⟩,
       ⟨"created_at", false, .ts⟩]
  | "mounts" =>
      [⟨"id", false, .none⟩, ⟨"disk_id", true, .none⟩,
       ⟨"mountpoint", true, .none⟩, ⟨"options", false, .none⟩,
       ⟨"created_at", false, .ts⟩]
  | "paths" =>
      [⟨"id", false, .none⟩, ⟨"mount_id", true, .none⟩,
       ⟨"path", true, .none⟩, ⟨"mode", false, .val (.s "0755")⟩,
       ⟨"created_at", false, .ts⟩]
  | "vars" =>
      [⟨"id", false, .none⟩, ⟨"value", false, .none⟩,
       ⟨"created_at", false, .ts⟩]
  | "modules" =>
      [⟨"id", false, .none⟩, ⟨"source", true, .none⟩,
       ⟨"enabled", false, .val (.i 1)⟩, ⟨"created_at", false, .ts⟩]
  | "links" =>
      [⟨"id", false, .none⟩, ⟨"from_module", true, .none⟩,
       ⟨"to_module", true, .none⟩, ⟨"bindings", false, .none⟩,
       ⟨"created_at", false, .ts⟩]
  | "exposures" =>
      [⟨"id", false, .none⟩, ⟨"module", true, .none⟩,
       ⟨"protocol", false, .none⟩, ⟨"port", false, .none⟩,
       ⟨"description", false, .none⟩, ⟨"created_at", false, .ts⟩]
  | _ => []

/-- One INSERT of _import_from_branch.  cols is rows[0].keys(); the
inserted values are row.get(col) for those columns (None for a key the
row lacks); remaining schema columns take their defaults.  sqlite
enforces NOT NULL and the id PRIMARY KEY (NULL ids are allowed by
sqlite TEXT PRIMARY KEY quirk, uniqueness applies to non-NULL ids). -/
def sqliteInsert (schema : List Col) (now : String) (cols : List String)
    (tbl : List Row) (r : Row) : Except String (List Row) :=
  if cols.all (fun c => schema.any (fun sc => sc.name == c)) then
    let fullRow : Row := schema.map (fun sc =>
      (sc.name,
        if cols.contains sc.name then (List.lookup sc.name r).getD JVal.null
        else match sc.dflt with
          | .ts => JVal.s now
          | .val v => v
          | .none => JVal.null))
    if schema.all (fun sc =>
        !sc.notNull || (List.lookup sc.name fullRow).getD JVal.null ≠ JVal.null) then
      let idv := (List.lookup "id" fullRow).getD JVal.null
      if idv ≠ JVal.null ∧
          tbl.any (fun r0 => (List.lookup "id" r0).getD JVal.null == idv) then
        Except.error "UNIQUE constraint failed: id"
      else
        Except.ok (tbl ++ [fullRow])
    else Except.error "NOT NULL constraint failed"
  else Except.error "no such column"

/-- Import of one nonempty export document: DELETE then per-row INSERT,
with the column list taken from the first row. -/
def importTableRows (schema : List Col) (now : String) (rows : List Row) :
    Except String (List Row) :=
  let cols := (rows.headD []).map Prod.fst
  rows.foldlM (fun tbl r => sqliteInsert schema now cols tbl r) []

/-- Stable insertion into a sorted list (used to model ORDER BY). -/
def insertSorted {α : Type} (le : α → α → Bool) (a : α) : List α → List α
  | [] => [a]
  | b :: bs => if le a b then a :: b :: bs else b :: insertSorted le a bs

/-- Stable insertion sort (models sqlite ORDER BY, deterministic). -/
def sortByLe {α : Type} (le : α → α → Bool) (xs : List α) : List α :=
  xs.foldr (insertSorted le) []

/-- ORDER BY id comparison between rows. -/
def rowIdLe (r₁ r₂ : Row) : Bool :=
  jvalLe ((List.lookup "id" r₁).getD JVal.null)
         ((List.lookup "id" r₂).getD JVal.null)

/-- A commit of the state repo: parent pointer, message, and the full
tree of export documents (table name to rows; an absent table means the
export file does not exist in that tree). -/
structure GitCommit where
  parent : Option Nat
  msg : String
  tree : List (String × List Row)
deriving DecidableEq, Repr

/-- The git-backed log: commit map, the two branch tips (main holds
reality, edit holds intent) and each branch worktree checkout. -/
structure GitState where
  commits : List (Nat × GitCommit)
  mainTip : Nat
  editTip : Nat
  mainFiles : List (String × List Row)
  editFiles : List (String × List Row)
  nextId : Nat
deriving DecidableEq, Repr

/-- Commit ancestry by walking parent pointers with fuel (the commit
map is finite, so commits.length + 1 steps suffice). -/
def ancWalk (commits : List (Nat × GitCommit)) :
    Nat → Nat → Nat → Bool
  | 0, _, _ => false
  | fuel + 1, a, b =>
    a == b ||
      match List.lookup b commits with
      | some c =>
          match c.parent with
          | some p => ancWalk commits fuel a p
          | none => false
      | none => false

/-- a is an ancestor of (or equal to) b in the commit graph. -/
def isAncestor (g : GitState) (a b : Nat) : Bool :=
  ancWalk g.commits (g.commits.length + 1) a b

/-- The mutable world of the StateStore: git state, the sqlite cache
(table to stored full rows), the clock used for CURRENT_TIMESTAMP, and
a ghost trace of every merge_to_main invocation. -/
structure World where
  git : GitState
  db : List (String × List Row)
  now : String
  merges : List Nat
deriving DecidableEq, Repr

/-- The worktree files of a branch (only main and edit exist). -/
def branchFiles (branch : String) (w : World) :
    Except String (List (String × List Row)) :=
  if branch == "main" then Except.ok w.git.mainFiles
  else if branch == "edit" then Except.ok w.git.editFiles
  else Except.error ("Unknown branch: " ++ branch)

/-- The per-table loop of _import_from_branch: a missing export file is
skipped, an empty row list is skipped, otherwise the cache table is
cleared and refilled.  An insert error propagates immediately (the
sqlite transaction machinery on the failing path is not modelled
further; no verified property depends on the cache state that a
failing import leaves behind). -/
def importTables : List String → List (String × List Row) → World →
    Except String Unit × World
  | [], _, w => (Except.ok (), w)
  | t :: ts, files, w =>
    match List.lookup t files with
    | Option.none => importTables ts files w
    | some [] => importTables ts files w
    | some rows =>
      match importTableRows (schemaOf t) w.now rows with
      | Except.error e => (Except.error e, w)
      | Except.ok newTbl =>
          importTables ts files { w with db := setTable w.db t newTbl }

/-- StateStore._import_from_branch. -/
def importBranch (branch : String) (w : World) : Except String Unit × World :=
  match branchFiles branch w with
  | Except.error e => (Except.error e, w)
  | Except.ok files => importTables tableNames files w

/-- SELECT * FROM table ORDER BY id over the cache. -/
def selectOrdered (table : String) (db : List (String × List Row)) :
    Except String (List Row) :=
  match List.lookup table db with
  | some tbl => Except.ok (sortByLe rowIdLe tbl)
  | Option.none => Except.error ("no such table: " ++ table)

/-- StateStore.get_desired_resources / get_actual_resources: re-import
the branch into the cache, then read the table ordered by id. -/
def getResources (branch : String) (table : String) (w : World) :
    Except String (List Row) × World :=
  match importBranch branch w with
  | (Except.error e, w₁) => (Except.error e, w₁)
  | (Except.ok _, w₁) => (selectOrdered table w₁.db, w₁)

/-- StateStore.write_to_edit: overwrite the table export in the edit
worktree (atomic replace), commit on edit, return the new commit id.
An unknown table raises KeyError from EXPORT_FILES. -/
def writeToEdit (table : String) (rows : List Row) (msg : String)
    (w : World) : Except String Nat × World :=
  if tableNames.contains table then
    let g := w.git
    let files₁ := setTable g.editFiles table rows
    let cid := g.nextId
    let g₁ : GitState :=
      { g with
        editFiles := files₁
        commits := (cid, ⟨some g.editTip, msg, files₁⟩) :: g.commits
        editTip := cid
        nextId := cid + 1 }
    (Except.ok cid, { w with git := g₁ })
  else (Except.error ("KeyError: " ++ table), w)

/-- StateStore.merge_to_main: git merge --ff-only sha in the main
worktree.  If sha is already contained in main the merge is a no-op
success; if main tip is an ancestor of sha the branch fast-forwards
and the checkout becomes sha tree; otherwise git fails and the
wrapper raises RuntimeError.  On success the main branch is re-imported
into the cache.  Every invocation is recorded in the ghost trace. -/
def mergeToMain (sha : Nat) (w : World) : Except String Unit × World :=
  let w₀ := { w with merges := w.merges ++ [sha] }
  let g := w₀.git
  if isAncestor g sha g.mainTip then
    importBranch "main" w₀
  else if isAncestor g g.mainTip sha then
    match List.lookup sha g.commits with
    | some c =>
        importBranch "main"
          { w₀ with git := { g with mainTip := sha, mainFiles := c.tree } }
    | Option.none =>
        (Except.error ("Failed to merge " ++ toString sha ++ " to main"), w₀)
  else
    (Except.error ("Failed to merge " ++ toString sha ++ " to main"), w₀)

/-! ## Executor (executor.py) -/

/-- ReconcileResult (executor.py). -/
inductive ReconcileResult where
  | applied
  | running
  | blocked
  | waiting
  | failed
deriving DecidableEq, Repr

/-- BlockedReason (executor.py). -/
inductive BlockedReason where
  | rebootRequired
  | commandRunning
  | missingDependency
deriving DecidableEq, Repr

/-- ReconcileError (executor.py). -/
structure ReconcileError where
  res : String
  message : String
deriving DecidableEq, Repr

/-- ReconcileResponse (executor.py); the optional fields default to
None in Python. -/
structure ReconcileResponse where
  result : ReconcileResult
  reason : Option BlockedReason
  error : Option ReconcileError
  pending : Option (List String)
deriving DecidableEq, Repr

def mkResp (r : ReconcileResult) : ReconcileResponse :=
  ⟨r, Option.none, Option.none, Option.none⟩

/-- The ephemeral executor state (fields of the Executor object). -/
structure ExecState where
  state : String
  rebootRequired : Bool
  pendingRes : List String
  lastCommittedSha : Option Nat
deriving DecidableEq, Repr

/-- Python dict equality on rows, extensional in keys and values. -/
def pyRowEq (r₁ r₂ : Row) : Bool :=
  r₁.all (fun kv => (List.lookup kv.1 r₂).getD JVal.null == kv.2 &&
                    (List.lookup kv.1 r₂).isSome) &&
  r₂.all (fun kv => (List.lookup kv.1 r₁).getD JVal.null == kv.2 &&
                    (List.lookup kv.1 r₁).isSome)

/-- Insert into an id-keyed Python dict: re-assignment keeps the key
original position, a new key is appended. -/
def dictInsert (d : List (JVal × Row)) (k : JVal) (v : Row) :
    List (JVal × Row) :=
  if d.any (fun kv => kv.1 == k) then
    d.map (fun kv => if kv.1 == k then (k, v) else kv)
  else d ++ [(k, v)]

/-- The dict comprehension of _phase_1_storage, keyed by d["id"]; a row
with no id key raises KeyError. -/
def dictById (rows : List Row) : Except String (List (JVal × Row)) :=
  rows.foldlM (fun d r =>
    match List.lookup "id" r with
    | Option.none => Except.error "KeyError: id"
    | some k => Except.ok (dictInsert d k r)) []

/-- Python dict equality between the two id-keyed dicts (same key set,
equal row values). -/
def dictEqPy (d₁ d₂ : List (JVal × Row)) : Bool :=
  d₁.all (fun kv =>
    match d₂.find? (fun kv₂ => kv₂.1 == kv.1) with
    | some kv₂ => pyRowEq kv.2 kv₂.2
    | Option.none => false) &&
  d₂.all (fun kv => d₁.any (fun kv₁ => kv₁.1 == kv.1))


/-- Sequence of get_*_resources calls building a dict of tables. -/
def getManyRes (branch : String) :
    List String → World → Except String (List (String × List Row)) × World
  | [], w => (Except.ok [], w)
  | t :: ts, w =>
    match getResources branch t w with
    | (Except.error e, w₁) => (Except.error e, w₁)
    | (Except.ok rows, w₁) =>
      match getManyRes branch ts w₁ with
      | (Except.error e, w₂) => (Except.error e, w₂)
      | (Except.ok rest, w₂) => (Except.ok ((t, rows) :: rest), w₂)

/-- Executor._phase_0_probe: five get_actual_resources reads off the
main branch. -/
def phase0Probe (w : World) :
    Except String (List (String × List Row)) × World :=
  getManyRes "main" ["disks", "mounts", "paths", "modules", "exposures"] w

/-- Executor._get_desired_state: six get_desired_resources reads off
the edit branch. -/
def getDesiredState (w : World) :
    Except String (List (String × List Row)) × World :=
  getManyRes "edit" ["disks", "mounts", "paths", "vars", "modules", "exposures"] w

/-- Executor._phase_1_storage: compare desired and actual disks keyed
by id; if they differ and some desired disk id is absent from actual,
set state to IDLE, flag reboot_required and return BLOCKED with reason
REBOOT_REQUIRED; otherwise APPLIED.  A KeyError from the dict
comprehension propagates to reconcile handler with the executor
fields untouched. -/
def phase1Storage (desired actual : List (String × List Row))
    (es : ExecState) : Except String ReconcileResponse × ExecState :=
  let dd := (List.lookup "disks" desired).getD []
  let ad := (List.lookup "disks" actual).getD []
  match dictById dd with
  | Except.error e => (Except.error e, es)
  | Except.ok ddict =>
    match dictById ad with
    | Except.error e => (Except.error e, es)
    | Except.ok adict =>
      if !dictEqPy ddict adict then
        match ddict.find? (fun kv => !adict.any (fun kv₂ => kv₂.1 == kv.1)) with
        | some _ =>
            (Except.ok { mkResp .blocked with reason := some .rebootRequired },
             { es with state := "IDLE", rebootRequired := true })
        | Option.none => (Except.ok (mkResp .applied), es)
      else (Except.ok (mkResp .applied), es)

/-- Executor._phase_2_vars: a stub that always returns APPLIED (the
reference resolution is a TODO in the source). -/
def phase2Vars (_desired : List (String × List Row)) : ReconcileResponse :=
  mkResp .applied

/-- Executor._phase_3_modules: stub, always APPLIED. -/
def phase3Modules (_desired : List (String × List Row)) : ReconcileResponse :=
  mkResp .applied

/-- Executor._phase_4_exposures: stub, always APPLIED. -/
def phase4Exposures (_desired : List (String × List Row)) : ReconcileResponse :=
  mkResp .applied

/-- Executor._phase_5_convergence: stub, always APPLIED; the source
does not call merge_to_main here despite its docstring. -/
def phase5Convergence (_actual _desired : List (String × List Row)) :
    ReconcileResponse :=
  mkResp .applied

/-- Executor.reconcile.  Mirrors executor.py line by line: the RUNNING
guard, the transition to RUNNING, phases 0-5 with early return on any
non-APPLIED result, the probe truthiness check (dead in practice since
the probe dict always has five keys), the IDLE transition before the
final return, and the catch-all handler that returns FAILED and resets
to IDLE.  The unused trigger id parameter is kept for fidelity. -/
def reconcile (es : ExecState) (w : World) (_intentId : Option Nat) :
    ReconcileResponse × ExecState × World :=
  if es.state == "RUNNING" then
    ({ mkResp .waiting with reason := some .commandRunning }, es, w)
  else
    let es₁ := { es with state := "RUNNING" }
    match phase0Probe w with
    | (Except.error e, w₁) =>
        ({ mkResp .failed with error := some ⟨"executor", e⟩ },
         { es₁ with state := "IDLE" }, w₁)
    | (Except.ok actual, w₁) =>
      if actual.isEmpty then
        ({ mkResp .failed with
           error := some ⟨"probe", "Failed to probe system state"⟩ }, es₁, w₁)
      else
        match getDesiredState w₁ with
        | (Except.error e, w₂) =>
            ({ mkResp .failed with error := some ⟨"executor", e⟩ },
             { es₁ with state := "IDLE" }, w₂)
        | (Except.ok desired, w₂) =>
          match phase1Storage desired actual es₁ with
          | (Except.error e, es₂) =>
              ({ mkResp .failed with error := some ⟨"executor", e⟩ },
               { es₂ with state := "IDLE" }, w₂)
          | (Except.ok r₁, es₂) =>
            if r₁.result ≠ .applied then (r₁, es₂, w₂)
            else
              let r₂ := phase2Vars desired
              if r₂.result ≠ .applied then (r₂, es₂, w₂)
              else
                let r₃ := phase3Modules desired
                if r₃.result ≠ .applied then (r₃, es₂, w₂)
                else
                  let r₄ := phase4Exposures desired
                  if r₄.result ≠ .applied then (r₄, es₂, w₂)
                  else
                    let r₅ := phase5Convergence actual desired
                    (r₅, { es₂ with state := "IDLE" }, w₂)

/-! ## Commands (commands/disk.py, mount.py, path.py)

The commands act on host state through _run_bash.  The host is
modelled with the observables those shell commands touch: the set of
block devices, the mount table (mountpoint to options) and the
directory tree (path to mode and emptiness; intermediate directories
created by mkdir -p are abstracted).  A mounted filesystem is never
busy in the model, so umount on a mounted path succeeds. -/

structure Host where
  devices : List String
  mounts : List (String × String)
  dirs : List (String × String × Bool)
deriving DecidableEq, Repr

/-- CommandStatus (commands/init). -/
inductive CommandStatus where
  | applied
  | blocked
  | failed
deriving DecidableEq, Repr

/-- CommandResult (commands/init). -/
structure CommandResult where
  status : CommandStatus
  reason : Option String
  error : Option String
  output : Option Row
deriving DecidableEq, Repr

def failedRes (e : String) : CommandResult :=
  ⟨.failed, Option.none, some e, Option.none⟩

def appliedRes : CommandResult :=
  ⟨.applied, Option.none, Option.none, Option.none⟩

def appliedOut (o : Row) : CommandResult :=
  ⟨.applied, Option.none, Option.none, some o⟩

/-- The RuntimeError message raised by _run_bash on failure (stderr and
stdout are not modelled). -/
def bashErr (script : String) : String :=
  "Command failed: " ++ script

/-- mountpoint -q: is the path present in the mount table. -/
def isMountpoint (h : Host) (p : String) : Bool :=
  (List.lookup p h.mounts).isSome

/-- test -d: does the directory exist. -/
def dirEntry (h : Host) (p : String) : Option (String × Bool) :=
  (h.dirs.find? (fun d => d.1 == p)).map (fun d => d.2)

/-- mkdir -p: create the directory if absent (a fresh directory is
empty, with the default creation mode). -/
def mkdirP (h : Host) (p : String) : Host :=
  if (dirEntry h p).isSome then h
  else { h with dirs := h.dirs ++ [(p, "0755", true)] }

/-- chmod: set the mode of an existing directory. -/
def chmodDir (h : Host) (p : String) (m : String) : Host :=
  { h with dirs := h.dirs.map (fun d => if d.1 == p then (p, m, d.2.2) else d) }

/-- rmdir on an (empty) directory. -/
def rmdirHost (h : Host) (p : String) : Host :=
  { h with dirs := h.dirs.filter (fun d => d.1 != p) }

/-- mount -o remount,opts: update the options of a mounted path. -/
def remountHost (h : Host) (p : String) (opts : String) : Host :=
  { h with mounts := h.mounts.map (fun kv => if kv.1 == p then (p, opts) else kv) }

/-- umount: drop the path from the mount table. -/
def umountHost (h : Host) (p : String) : Host :=
  { h with mounts := h.mounts.filter (fun kv => kv.1 != p) }

/-- The nine registered commands (table by operation kind). -/
inductive Cmd where
  | addDisk
  | editDisk
  | releaseDisk
  | addMount
  | editMount
  | releaseMount
  | addPath
  | editPath
  | deletePath
deriving DecidableEq, Repr

/-- AddDisk.execute: validate device, check it with lsblk -d, report
applied with the resolved output (partitioning itself is a TODO in the
source and changes nothing). -/
def execAddDisk (r : Row) (h : Host) : CommandResult × Host :=
  let device := pyGet r "device"
  if !jvalTruthy device then (failedRes "device is required", h)
  else
    let dev := jvalStr device
    if h.devices.contains dev then
      (appliedOut [("device", device),
                   ("partition", pyGetD r "partition" (.s "1")),
                   ("filesystem", pyGetD r "filesystem" (.s "ext4"))], h)
    else (failedRes (bashErr ("lsblk -d " ++ dev ++ " > /dev/null 2>&1")), h)

/-- EditDisk.execute: a stub that returns applied unconditionally,
with no validation of the resource. -/
def execEditDisk (_r : Row) (h : Host) : CommandResult × Host :=
  (appliedRes, h)

/-- ReleaseDisk.execute: validate device, refuse while mounted, else
applied (the wipe is a TODO in the source and changes nothing). -/
def execReleaseDisk (r : Row) (h : Host) : CommandResult × Host :=
  let device := pyGet r "device"
  if !jvalTruthy device then (failedRes "device is required", h)
  else
    let dev := jvalStr device
    if isMountpoint h dev then (failedRes (dev ++ " is still mounted"), h)
    else (appliedRes, h)

/-- AddMount.execute: validate mountpoint, mkdir -p it, report applied
(the mount itself is a TODO in the source). -/
def execAddMount (r : Row) (h : Host) : CommandResult × Host :=
  let mp := pyGet r "mountpoint"
  let opts := pyGetD r "options" (.s "defaults")
  if !jvalTruthy mp then (failedRes "mountpoint is required", h)
  else
    let p := jvalStr mp
    (appliedOut [("mountpoint", mp), ("options", opts)], mkdirP h p)

/-- EditMount.execute: validate mountpoint, remount with the new
options (fails if the path is not mounted). -/
def execEditMount (r : Row) (h : Host) : CommandResult × Host :=
  let mp := pyGet r "mountpoint"
  let opts := pyGetD r "options" (.s "defaults")
  if !jvalTruthy mp then (failedRes "mountpoint is required", h)
  else
    let p := jvalStr mp
    if isMountpoint h p then
      (appliedOut [("mountpoint", mp), ("options", opts)],
       remountHost h p (jvalStr opts))
    else (failedRes (bashErr ("mount -o remount," ++ jvalStr opts ++ " " ++ p)), h)

/-- ReleaseMount.execute: validate mountpoint; if not mounted, applied
as a no-op; else umount and report applied. -/
def execReleaseMount (r : Row) (h : Host) : CommandResult × Host :=
  let mp := pyGet r "mountpoint"
  if !jvalTruthy mp then (failedRes "mountpoint is required", h)
  else
    let p := jvalStr mp
    if !isMountpoint h p then (appliedRes, h)
    else (appliedRes, umountHost h p)

/-- AddPath.execute: validate path, mkdir -p, chmod to the requested
mode, report applied with output. -/
def execAddPath (r : Row) (h : Host) : CommandResult × Host :=
  let path := pyGet r "path"
  let mode := pyGetD r "mode" (.s "0755")
  if !jvalTruthy path then (failedRes "path is required", h)
  else
    let p := jvalStr path
    let h₁ := mkdirP h p
    (appliedOut [("path", path), ("mode", mode)], chmodDir h₁ p (jvalStr mode))

/-- EditPath.execute: validate path, require the directory to exist
(test -d), chmod it. -/
def execEditPath (r : Row) (h : Host) : CommandResult × Host :=
  let path := pyGet r "path"
  let mode := pyGetD r "mode" (.s "0755")
  if !jvalTruthy path then (failedRes "path is required", h)
  else
    let p := jvalStr path
    if (dirEntry h p).isSome then
      (appliedOut [("path", path), ("mode", mode)], chmodDir h p (jvalStr mode))
    else (failedRes (bashErr ("test -d " ++ p)), h)

/-- DeletePath.execute: validate path; absent directory is an applied
no-op; a non-empty directory is refused; an empty one is removed. -/
def execDeletePath (r : Row) (h : Host) : CommandResult × Host :=
  let path := pyGet r "path"
  if !jvalTruthy path then (failedRes "path is required", h)
  else
    let p := jvalStr path
    match dirEntry h p with
    | Option.none => (appliedRes, h)
    | some d =>
      if !d.2 then (failedRes ("Directory " ++ p ++ " is not empty"), h)
      else (appliedRes, rmdirHost h p)

/-- Dispatch of Command.execute over the registered commands. -/
def execute : Cmd → Row → Host → CommandResult × Host
  | .addDisk => execAddDisk
  | .editDisk => execEditDisk
  | .releaseDisk => execReleaseDisk
  | .addMount => execAddMount
  | .editMount => execEditMount
  | .releaseMount => execReleaseMount
  | .addPath => execAddPath
  | .editPath => execEditPath
  | .deletePath => execDeletePath

/-- The required field each command validates before doing any work
(EditDisk validates nothing). -/
def reqField : Cmd → Option String
  | .addDisk => some "device"
  | .editDisk => Option.none
  | .releaseDisk => some "device"
  | .addMount => some "mountpoint"
  | .editMount => some "mountpoint"
  | .releaseMount => some "mountpoint"
  | .addPath => some "path"
  | .editPath => some "path"
  | .deletePath => some "path"

/-! ## Concrete stores used by witnesses and counterexamples -/

/-- A cache with all seven tables present and empty. -/
def db0 : List (String × List Row) := tableNames.map (fun t => (t, []))

def esIdle : ExecState := ⟨"IDLE", false, [], Option.none⟩

def esRun : ExecState := ⟨"RUNNING", false, [], Option.none⟩

/-- Scenario B store: one root commit whose tree has a single disk d1,
checked out on both branches. -/
def diskRowB : Row := [("id", JVal.s "d1"), ("device", JVal.s "/dev/sdb")]

def wB0 : World :=
  { git :=
      { commits := [(0, ⟨Option.none, "seed", [("disks", [diskRowB])]⟩)]
        mainTip := 0, editTip := 0
        mainFiles := [("disks", [diskRowB])]
        editFiles := [("disks", [diskRowB])]
        nextId := 1 }
    db := db0, now := "T0", merges := [] }

/-- The mount row of Scenario B. -/
def mountRowB : Row :=
  [("id", JVal.s "m1"), ("disk_id", JVal.s "d1"),
   ("mountpoint", JVal.s "/mnt/data"), ("options", JVal.s "defaults")]

/-- The store right after Scenario B writeIntent. -/
def wB1 : World := (writeToEdit "mounts" [mountRowB] "add mount" wB0).2

/-- Scenario D store: the edit branch holds a var whose value contains
an unresolvable reference. -/
def varRowD : Row :=
  [("id", JVal.s "v1"), ("value", JVal.s "$\x7bpath:unknown-id\x7d")]

def wD0 : World :=
  { git :=
      { commits := [(0, ⟨Option.none, "seed", [("vars", [varRowD])]⟩)]
        mainTip := 0, editTip := 0
        mainFiles := []
        editFiles := [("vars", [varRowD])]
        nextId := 1 }
    db := db0, now := "T0", merges := [] }

/-- An empty store used by the cache-consistency runs. -/
def wE0 : World :=
  { git :=
      { commits := [(0, ⟨Option.none, "seed", []⟩)]
        mainTip := 0, editTip := 0
        mainFiles := [], editFiles := []
        nextId := 1 }
    db := db0, now := "T0", merges := [] }

def diskRowE : Row := [("id", JVal.s "d0"), ("device", JVal.s "/dev/sda")]

/-- The full cache row produced from diskRowE by the schema defaults. -/
def diskFullE : Row :=
  [("id", JVal.s "d0"), ("device", JVal.s "/dev/sda"),
   ("partition", JVal.null), ("filesystem", JVal.null),
   ("created_at", JVal.s "T0")]

def wE1 : World := (writeToEdit "disks" [diskRowE] "add disk" wE0).2

def wE2 : World := (getResources "edit" "disks" wE1).2

def wE3 : World := (writeToEdit "disks" [] "wipe disks" wE2).2

/-- A linear two-commit history with both tips at commit 1. -/
def wC7 : World :=
  { git :=
      { commits := [(1, ⟨some 0, "c1", []⟩), (0, ⟨Option.none, "c0", []⟩)]
        mainTip := 1, editTip := 1
        mainFiles := [], editFiles := []
        nextId := 2 }
    db := db0, now := "T0", merges := [] }

/-- A store whose edit branch introduces disk dX absent from reality. -/
def wC5 : World :=
  { git :=
      { commits := [(0, ⟨Option.none, "seed", []⟩)]
        mainTip := 0, editTip := 0
        mainFiles := []
        editFiles := [("disks", [[("id", JVal.s "dX"), ("device", JVal.s "/dev/sdx")]])]
        nextId := 1 }
    db := db0, now := "T0", merges := [] }

/-- Does the export of a table import cleanly (absent or empty files
are skipped)?  Decidable form used as a side condition. -/
def fileImportOkB (files : List (String × List Row)) (now t : String) : Bool :=
  match List.lookup t files with
  | Option.none => true
  | some rs => rs.isEmpty || (importTableRows (schemaOf t) now rs).toBool

/-! ## Helper lemmas -/

theorem importTables_preserve (ts : List String)
    (files : List (String × List Row)) (w : World) :
    (importTables ts files w).2.git = w.git ∧
    (importTables ts files w).2.now = w.now ∧
    (importTables ts files w).2.merges = w.merges := by
  induction ts generalizing w with
  | nil => exact ⟨rfl, rfl, rfl⟩
  | cons t ts ih =>
    unfold importTables
    split
    · exact ih w
    · exact ih w
    · split
      · exact ⟨rfl, rfl, rfl⟩
      · exact ih _

theorem importBranch_preserve (branch : String) (w : World) :
    (importBranch branch w).2.git = w.git ∧
    (importBranch branch w).2.now = w.now ∧
    (importBranch branch w).2.merges = w.merges := by
  unfold importBranch
  cases branchFiles branch w with
  | error e => exact ⟨rfl, rfl, rfl⟩
  | ok files => exact importTables_preserve tableNames files w

theorem getResources_preserve (branch table : String) (w : World) :
    (getResources branch table w).2.git = w.git ∧
    (getResources branch table w).2.now = w.now ∧
    (getResources branch table w).2.merges = w.merges := by
  unfold getResources
  rcases him : importBranch branch w with ⟨res, w₁⟩
  have := importBranch_preserve branch w
  rw [him] at this
  cases res <;> exact this

theorem getManyRes_preserve (branch : String) (ts : List String) (w : World) :
    (getManyRes branch ts w).2.git = w.git ∧
    (getManyRes branch ts w).2.now = w.now ∧
    (getManyRes branch ts w).2.merges = w.merges := by
  induction ts generalizing w with
  | nil => exact ⟨rfl, rfl, rfl⟩
  | cons t ts ih =>
    unfold getManyRes
    rcases hg : getResources branch t w with ⟨res, w₁⟩
    have h₁ := getResources_preserve branch t w
    rw [hg] at h₁
    cases res with
    | error e => exact h₁
    | ok rows =>
      rcases hm : getManyRes branch ts w₁ with ⟨res₂, w₂⟩
      have h₂ := ih w₁
      rw [hm] at h₂
      dsimp only
      rw [hm]
      cases res₂ with
      | error e =>
          exact ⟨h₂.1.trans h₁.1, h₂.2.1.trans h₁.2.1, h₂.2.2.trans h₁.2.2⟩
      | ok rest =>
          exact ⟨h₂.1.trans h₁.1, h₂.2.1.trans h₁.2.1, h₂.2.2.trans h₁.2.2⟩

/-- A successful probe always yields a five-entry dict, so the probe
truthiness check in reconcile never fires. -/
theorem phase0_ok_ne_nil (w : World) (actual : List (String × List Row))
    (w₁ : World) (h : phase0Probe w = (Except.ok actual, w₁)) :
    actual.isEmpty = false := by
  unfold phase0Probe getManyRes at h
  rcases hg : getResources "main" "disks" w with ⟨res, wa⟩
  rw [hg] at h
  cases res with
  | error e => simp at h
  | ok rows =>
    rcases hm : getManyRes "main" ["mounts", "paths", "modules", "exposures"] wa
      with ⟨res₂, wb⟩
    dsimp only at h
    rw [hm] at h
    cases res₂ with
    | error e => simp at h
    | ok rest =>
      have : actual = ("disks", rows) :: rest := by
        have := congrArg Prod.fst h
        simpa using this.symm
      rw [this]
      rfl

/-- Classification of _phase_1_storage outcomes: either APPLIED with
the executor fields untouched, or BLOCKED/REBOOT_REQUIRED with state
IDLE and reboot_required set. -/
theorem phase1_cases (d a : List (String × List Row)) (es : ExecState)
    (r : ReconcileResponse) (es₂ : ExecState)
    (h : phase1Storage d a es = (Except.ok r, es₂)) :
    (r = mkResp .applied ∧ es₂ = es) ∨
    (r = { mkResp .blocked with reason := some .rebootRequired } ∧
     es₂ = { es with state := "IDLE", rebootRequired := true }) := by
  unfold phase1Storage at h
  dsimp only at h
  rcases hd : dictById ((List.lookup "disks" d).getD []) with e | ddict <;> rw [hd] at h
  · simp at h
  · dsimp only at h
    rcases ha : dictById ((List.lookup "disks" a).getD []) with e | adict <;>
      rw [ha] at h <;> dsimp only at h
    · simp at h
    · by_cases hne : (!dictEqPy ddict adict) = true
      · rw [if_pos hne] at h
        rcases hf : ddict.find? (fun kv => !adict.any (fun kv₂ => kv₂.1 == kv.1))
          with _ | kv <;> rw [hf] at h
        · left
          simp only [Prod.mk.injEq, Except.ok.injEq] at h
          exact ⟨h.1.symm, h.2.symm⟩
        · right
          simp only [Prod.mk.injEq, Except.ok.injEq] at h
          exact ⟨h.1.symm, h.2.symm⟩
      · rw [if_neg hne] at h
        left
        simp only [Prod.mk.injEq, Except.ok.injEq] at h
        exact ⟨h.1.symm, h.2.symm⟩

/-! ## Claim theorems -/

/-- C2: whenever the executor state is RUNNING, reconcile() returns
waiting (reason COMMAND_RUNNING) immediately, leaving the executor
fields and the whole store world untouched: no probe, no state-store
read or write, and no command execution happen on that call. -/
theorem reconcile_running_waiting (es : ExecState) (w : World)
    (tid : Option Nat) (h : es.state = "RUNNING") :
    reconcile es w tid =
      ({ mkResp .waiting with reason := some .commandRunning }, es, w) := by
  unfold reconcile
  rw [if_pos (by simp [h])]

/-- Witness for C2 at a concrete RUNNING executor over the Scenario B
store. -/
theorem reconcile_running_waiting_witness :
    esRun.state = "RUNNING" ∧
    reconcile esRun wB0 Option.none =
      ({ mkResp .waiting with reason := some .commandRunning }, esRun, wB0) :=
  ⟨rfl, reconcile_running_waiting esRun wB0 Option.none rfl⟩

/-- C10: every reconcile() call returns a response whose result is one
of applied, blocked, waiting or failed; the declared RUNNING result is
never handed to a caller. -/
theorem reconcile_result_total (es : ExecState) (w : World)
    (tid : Option Nat) :
    (reconcile es w tid).1.result = .applied ∨
    (reconcile es w tid).1.result = .blocked ∨
    (reconcile es w tid).1.result = .waiting ∨
    (reconcile es w tid).1.result = .failed := by
  unfold reconcile
  split
  · right; right; left; rfl
  · rcases h0 : phase0Probe w with ⟨res0, w₁⟩
    cases res0 with
    | error e => right; right; right; rfl
    | ok actual =>
      dsimp only
      split
      · right; right; right; rfl
      · rcases hd : getDesiredState w₁ with ⟨res1, w₂⟩
        cases res1 with
        | error e => right; right; right; rfl
        | ok desired =>
          dsimp only
          rcases h1 : phase1Storage desired actual { es with state := "RUNNING" }
            with ⟨res2, es₂⟩
          cases res2 with
          | error e => right; right; right; rfl
          | ok r₁ =>
            dsimp only
            split
            · rcases phase1_cases _ _ _ _ _ h1 with ⟨ha, _⟩ | ⟨hb, _⟩
              · left; rw [ha]; rfl
              · right; left; rw [hb]; rfl
            · left; rfl

/-- C3: every reconcile() invocation that actually starts the pipeline
(the executor was not RUNNING, so the call is not rejected as waiting)
leaves the executor state IDLE when it returns, on every exit path:
success, blocked, and failure, including store-read faults surfacing
during the probe or any phase (the caught-exception path) and any
non-applied phase result. -/
theorem reconcile_ends_idle (es : ExecState) (w : World) (tid : Option Nat)
    (h : es.state ≠ "RUNNING") :
    ((reconcile es w tid).2.1).state = "IDLE" := by
  unfold reconcile
  rw [if_neg (by simpa using h)]
  rcases h0 : phase0Probe w with ⟨res0, w₁⟩
  cases res0 with
  | error e => rfl
  | ok actual =>
    dsimp only
    rw [if_neg (by rw [phase0_ok_ne_nil w actual w₁ h0]; exact Bool.false_ne_true)]
    rcases hd : getDesiredState w₁ with ⟨res1, w₂⟩
    cases res1 with
    | error e => rfl
    | ok desired =>
      dsimp only
      rcases h1 : phase1Storage desired actual { es with state := "RUNNING" }
        with ⟨res2, es₂⟩
      cases res2 with
      | error e => rfl
      | ok r₁ =>
        dsimp only
        split
        · rename_i hne
          rcases phase1_cases _ _ _ _ _ h1 with ⟨ha, _⟩ | ⟨_, hb⟩
          · exact absurd (by rw [ha]; rfl) hne
          · rw [hb]
        · rfl

/-- Witness for C3 at a concrete IDLE executor over the Scenario B
store. -/
theorem reconcile_ends_idle_witness :
    esIdle.state ≠ "RUNNING" ∧
    ((reconcile esIdle wB0 Option.none).2.1).state = "IDLE" :=
  ⟨by decide, reconcile_ends_idle esIdle wB0 Option.none (by decide)⟩

/-- C1 (code evidence): in Scenario B — writeIntent of mount m1 on a
store whose reality already has disk d1, then reconcile() — every phase
returns applied and reconcile() reports applied, yet the executor never
invokes mergeToMain (the ghost merge trace stays empty), never records
a last_committed_id, and the reality tip stays at the seed commit 0
instead of the returned intent commit 1: _phase_5_convergence is a stub
that contradicts its own docstring. -/
theorem scenarioB_stub_never_merges :
    (writeToEdit "mounts" [mountRowB] "add mount" wB0).1 = Except.ok 1 ∧
    (reconcile esIdle wB1 (some 1)).1.result = .applied ∧
    (reconcile esIdle wB1 (some 1)).2.2.merges = [] ∧
    (reconcile esIdle wB1 (some 1)).2.2.git.mainTip = 0 ∧
    (reconcile esIdle wB1 (some 1)).2.1.lastCommittedSha = Option.none ∧
    (0 : Nat) ≠ 1 := by
  refine ⟨rfl, rfl, rfl, rfl, rfl, by decide⟩

/-- C6 (code evidence): Scenario D — the desired vars table carries the
value with the unresolvable reference to path id unknown-id — yet
reconcile() returns applied with no error, because _phase_2_vars is a
stub that contradicts its own docstring instead of failing and naming
the unresolved reference. -/
theorem scenarioD_stub_ignores_unresolved :
    (List.lookup "vars" wD0.git.editFiles) = some [varRowD] ∧
    (reconcile esIdle wD0 Option.none).1.result = .applied ∧
    (reconcile esIdle wD0 Option.none).1.error = Option.none := by
  refine ⟨rfl, rfl, rfl⟩

/-- dictInsert key membership. -/
theorem dictInsert_any_key (d : List (JVal × Row)) (k₀ k : JVal) (v : Row) :
    (dictInsert d k₀ v).any (fun kv => kv.1 == k) =
      (d.any (fun kv => kv.1 == k) || k₀ == k) := by
  unfold dictInsert
  split
  · rename_i hin
    rw [List.any_map]
    have hpt : ((fun kv => kv.1 == k) ∘
          fun kv : JVal × Row => if kv.1 == k₀ then (k₀, v) else kv) =
        (fun kv : JVal × Row => kv.1 == k) := by
      funext kv
      by_cases hk : kv.1 == k₀
      · have h1 : kv.1 = k₀ := by simpa using hk
        subst h1
        simp
      · have h1 : (kv.1 == k₀) = false := by simpa using hk
        have h2 : ¬(kv.1 = k₀) := by simpa using hk
        simp [h1, if_neg h2]
    rw [hpt]
    by_cases hk₀ : k₀ == k
    · have hke : k₀ = k := by simpa using hk₀
      rw [hk₀, Bool.or_true]
      rw [hke] at hin
      exact hin
    · simp [hk₀]
  · simp [List.any_append]

/-- When every row has an id, the dict comprehension succeeds. -/
theorem dictById_ok (rows : List Row)
    (h : ∀ r ∈ rows, (List.lookup "id" r).isSome = true) :
    ∃ d, dictById rows = Except.ok d ∧
      ∀ k, d.any (fun kv => kv.1 == k) =
        rows.any (fun r => List.lookup "id" r == some k) := by
  unfold dictById
  suffices haux : ∀ (rs : List Row) (acc : List (JVal × Row)),
      (∀ r ∈ rs, (List.lookup "id" r).isSome = true) →
      ∃ d, rs.foldlM (fun d r =>
          match List.lookup "id" r with
          | Option.none => Except.error "KeyError: id"
          | some k => Except.ok (dictInsert d k r)) acc = Except.ok d ∧
        ∀ k, d.any (fun kv => kv.1 == k) =
          (acc.any (fun kv => kv.1 == k) ||
           rs.any (fun r => List.lookup "id" r == some k)) by
    obtain ⟨d, hd, hk⟩ := haux rows [] h
    exact ⟨d, hd, fun k => by simpa using hk k⟩
  intro rs
  induction rs with
  | nil => intro acc _; exact ⟨acc, rfl, fun k => by simp⟩
  | cons r rs ih =>
    intro acc hall
    have hr := hall r (by simp)
    rcases hlk : List.lookup "id" r with _ | k
    · rw [hlk] at hr; simp at hr
    · obtain ⟨d, hd, hk⟩ := ih (dictInsert acc k r) (fun r' hr' => hall r' (by simp [hr']))
      refine ⟨d, ?_, ?_⟩
      · rw [List.foldlM_cons, hlk]
        simpa using hd
      · intro k'
        rw [hk k', dictInsert_any_key]
        simp only [List.any_cons, hlk]
        by_cases hkk : k == k'
        · have : k = k' := by simpa using hkk
          subst this
          simp [Bool.or_comm, Bool.or_assoc, Bool.or_left_comm]
        · have hne : (some k == some k') = false := by simpa using hkk
          simp [hkk, hne]

/-- If the desired dict holds a key the actual dict lacks, the two
Python dicts are unequal. -/
theorem dictEqPy_false_of_missing (d₁ d₂ : List (JVal × Row)) (k : JVal)
    (h₁ : d₁.any (fun kv => kv.1 == k) = true)
    (h₂ : d₂.any (fun kv => kv.1 == k) = false) :
    dictEqPy d₁ d₂ = false := by
  cases hdq : dictEqPy d₁ d₂ with
  | false => rfl
  | true =>
    exfalso
    unfold dictEqPy at hdq
    rw [Bool.and_eq_true] at hdq
    rw [List.any_eq_true] at h₁
    obtain ⟨kv, hkv, hkvk⟩ := h₁
    have := (List.all_eq_true.mp hdq.1) kv hkv
    have hnone := List.any_eq_false.mp h₂
    have hfind : d₂.find? (fun kv₂ => kv₂.1 == kv.1) = Option.none := by
      rw [List.find?_eq_none]
      intro kv₂ hkv₂ hcon
      have hk1 : kv.1 = k := by simpa using hkvk
      rw [hk1] at hcon
      exact hnone kv₂ hkv₂ hcon
    rw [hfind] at this
    simp at this

/-- When every desired and actual disk row has an id and some desired
disk id is absent from actual, _phase_1_storage blocks with
REBOOT_REQUIRED, resets state to IDLE and flags reboot_required. -/
theorem phase1_blocked_of_missing (d a : List (String × List Row))
    (es : ExecState) (k : JVal) (rmiss : Row)
    (hidd : ∀ r ∈ (List.lookup "disks" d).getD [],
        (List.lookup "id" r).isSome = true)
    (hida : ∀ r ∈ (List.lookup "disks" a).getD [],
        (List.lookup "id" r).isSome = true)
    (hmem : rmiss ∈ (List.lookup "disks" d).getD [])
    (hk : List.lookup "id" rmiss = some k)
    (habs : ∀ r ∈ (List.lookup "disks" a).getD [],
        ¬(List.lookup "id" r == some k) = true) :
    phase1Storage d a es =
      (Except.ok { mkResp .blocked with reason := some .rebootRequired },
       { es with state := "IDLE", rebootRequired := true }) := by
  obtain ⟨dd, hdd, hddk⟩ := dictById_ok _ hidd
  obtain ⟨ad, had, hadk⟩ := dictById_ok _ hida
  have hdk : dd.any (fun kv => kv.1 == k) = true := by
    rw [hddk]
    exact List.any_eq_true.mpr ⟨rmiss, hmem, by rw [hk]; simp⟩
  have hak : ad.any (fun kv => kv.1 == k) = false := by
    rw [hadk]
    exact List.any_eq_false.mpr habs
  have hne : dictEqPy dd ad = false := dictEqPy_false_of_missing dd ad k hdk hak
  have hfind : (dd.find? (fun kv => !ad.any (fun kv₂ => kv₂.1 == kv.1))).isSome = true := by
    rw [List.find?_isSome]
    obtain ⟨kv, hkv, hkvk⟩ := List.any_eq_true.mp hdk
    refine ⟨kv, hkv, ?_⟩
    have hk1 : kv.1 = k := by simpa using hkvk
    rw [hk1]
    simp [hak]
  unfold phase1Storage
  dsimp only
  rw [hdd]
  dsimp only
  rw [had]
  dsimp only
  rw [if_pos (by rw [hne]; rfl)]
  rcases hf : dd.find? (fun kv => !ad.any (fun kv₂ => kv₂.1 == kv.1)) with _ | kv
  · rw [hf] at hfind; simp at hfind
  · rw [hf]

/-- C5: whenever the pipeline starts (not RUNNING), the probe and the
desired-state reads succeed, every disk row carries an id, and some
desired disk id is absent from the actual disks, reconcile() returns
blocked with reason REBOOT_REQUIRED, sets reboot_required, resets the
state to IDLE, and stops before phases 2-5: the call returns the
phase-1 response with the store world exactly as the reads left it —
in particular the git log, both branch tips (so the reality branch),
and the merge trace are unchanged, and no Command has executed. -/
theorem reconcile_missing_disk_blocked (es : ExecState) (w : World)
    (tid : Option Nat) (actual desired : List (String × List Row))
    (w₁ w₂ : World) (k : JVal) (rmiss : Row)
    (hrun : es.state ≠ "RUNNING")
    (h0 : phase0Probe w = (Except.ok actual, w₁))
    (hd : getDesiredState w₁ = (Except.ok desired, w₂))
    (hidd : ∀ r ∈ (List.lookup "disks" desired).getD [],
        (List.lookup "id" r).isSome = true)
    (hida : ∀ r ∈ (List.lookup "disks" actual).getD [],
        (List.lookup "id" r).isSome = true)
    (hmem : rmiss ∈ (List.lookup "disks" desired).getD [])
    (hk : List.lookup "id" rmiss = some k)
    (habs : ∀ r ∈ (List.lookup "disks" actual).getD [],
        ¬(List.lookup "id" r == some k) = true) :
    reconcile es w tid =
      ({ mkResp .blocked with reason := some .rebootRequired },
       { es with state := "IDLE", rebootRequired := true }, w₂) ∧
    w₂.git = w.git ∧ w₂.merges = w.merges := by
  have hp1 := phase1_blocked_of_missing desired actual
    { es with state := "RUNNING" } k rmiss hidd hida hmem hk habs
  have hgit₁ : w₁.git = w.git := by
    have := getManyRes_preserve "main" ["disks", "mounts", "paths", "modules", "exposures"] w
    rw [show getManyRes "main" ["disks", "mounts", "paths", "modules", "exposures"] w
        = phase0Probe w from rfl, h0] at this
    exact this.1
  have hmg₁ : w₁.merges = w.merges := by
    have := getManyRes_preserve "main" ["disks", "mounts", "paths", "modules", "exposures"] w
    rw [show getManyRes "main" ["disks", "mounts", "paths", "modules", "exposures"] w
        = phase0Probe w from rfl, h0] at this
    exact this.2.2
  have hgit₂ : w₂.git = w₁.git := by
    have := getManyRes_preserve "edit"
      ["disks", "mounts", "paths", "vars", "modules", "exposures"] w₁
    rw [show getManyRes "edit" ["disks", "mounts", "paths", "vars", "modules", "exposures"] w₁
        = getDesiredState w₁ from rfl, hd] at this
    exact this.1
  have hmg₂ : w₂.merges = w₁.merges := by
    have := getManyRes_preserve "edit"
      ["disks", "mounts", "paths", "vars", "modules", "exposures"] w₁
    rw [show getManyRes "edit" ["disks", "mounts", "paths", "vars", "modules", "exposures"] w₁
        = getDesiredState w₁ from rfl, hd] at this
    exact this.2.2
  refine ⟨?_, hgit₂.trans hgit₁, hmg₂.trans hmg₁⟩
  unfold reconcile
  rw [if_neg (by simpa using hrun)]
  rw [h0]
  dsimp only
  rw [if_neg (by rw [phase0_ok_ne_nil w actual w₁ h0]; exact Bool.false_ne_true)]
  rw [hd]
  dsimp only
  rw [hp1]
  dsimp only
  rw [if_pos (by simp [mkResp])]

/-- Witness for C5 on the concrete store whose edit branch introduces
disk dX while reality has no disks. -/
theorem reconcile_missing_disk_blocked_witness :
    reconcile esIdle wC5 Option.none =
      ({ mkResp .blocked with reason := some .rebootRequired },
       { esIdle with state := "IDLE", rebootRequired := true },
       (getDesiredState (phase0Probe wC5).2).2) ∧
    (getDesiredState (phase0Probe wC5).2).2.git = wC5.git ∧
    (getDesiredState (phase0Probe wC5).2).2.merges = wC5.merges := by
  refine reconcile_missing_disk_blocked esIdle wC5 Option.none
    [("disks", []), ("mounts", []), ("paths", []), ("modules", []), ("exposures", [])]
    [("disks",
      [[("id", JVal.s "dX"), ("device", JVal.s "/dev/sdx"), ("partition", JVal.null),
        ("filesystem", JVal.null), ("created_at", JVal.s "T0")]]),
     ("mounts", []), ("paths", []), ("vars", []), ("modules", []), ("exposures", [])]
    (phase0Probe wC5).2 (getDesiredState (phase0Probe wC5).2).2
    (JVal.s "dX")
    [("id", JVal.s "dX"), ("device", JVal.s "/dev/sdx"), ("partition", JVal.null),
     ("filesystem", JVal.null), ("created_at", JVal.s "T0")]
    (by decide) rfl rfl (by decide) (by decide)
    (by decide) (by decide) (by decide)

/-- A positive ancestry walk from b finds b in the commit map unless
the walk stopped at equality. -/
theorem isAncestor_lookup (g : GitState) (a b : Nat)
    (h : isAncestor g a b = true) (hne : (a == b) = false) :
    (List.lookup b g.commits).isSome = true := by
  unfold isAncestor ancWalk at h
  rw [hne] at h
  rw [Bool.false_or] at h
  rcases hlk : List.lookup b g.commits with _ | c
  · rw [hlk] at h; simp at h
  · rfl

/-- C7 counterexample: in the linear two-commit store, commit 0 is not
a descendant of reality tip (commit 1), yet merge_to_main(0) returns
without error (git reports already-up-to-date) and leaves the tip at 1
— the claim for-every-non-descendant error is violated. -/
theorem mergeToMain_ancestor_counterexample :
    isAncestor wC7.git wC7.git.mainTip 0 = false ∧
    (mergeToMain 0 wC7).1 = Except.ok () ∧
    (mergeToMain 0 wC7).2.git.mainTip = 1 :=
  ⟨rfl, rfl, rfl⟩

/-- C7 (amended): merge_to_main(c) never creates a merge commit and
never moves the intent tip; it fails — leaving the whole git state
unchanged — whenever c is neither already contained in reality tip
nor a descendant of it; when c is already contained the tip stays
put; when c is a proper descendant the tip fast-forwards to c; and a
call on a store where reality tip and c are both reachable from
intent tip keeps reality tip reachable from intent tip. -/
theorem mergeToMain_ffonly (w : World) (sha : Nat) :
    ((mergeToMain sha w).2.git.commits = w.git.commits ∧
     (mergeToMain sha w).2.git.editTip = w.git.editTip) ∧
    (isAncestor w.git sha w.git.mainTip = false →
     isAncestor w.git w.git.mainTip sha = false →
       (∃ e, (mergeToMain sha w).1 = Except.error e) ∧
       (mergeToMain sha w).2.git = w.git) ∧
    (isAncestor w.git sha w.git.mainTip = true →
       (mergeToMain sha w).2.git = w.git) ∧
    (isAncestor w.git sha w.git.mainTip = false →
     isAncestor w.git w.git.mainTip sha = true →
       (mergeToMain sha w).2.git.mainTip = sha) ∧
    (isAncestor w.git w.git.mainTip w.git.editTip = true →
     isAncestor w.git sha w.git.editTip = true →
       isAncestor (mergeToMain sha w).2.git
         (mergeToMain sha w).2.git.mainTip
         (mergeToMain sha w).2.git.editTip = true) := by
  by_cases h1 : isAncestor w.git sha w.git.mainTip = true
  · have hgit : (mergeToMain sha w).2.git = w.git := by
      unfold mergeToMain
      dsimp only
      rw [if_pos h1]
      exact (importBranch_preserve "main" _).1
    refine ⟨⟨by rw [hgit], by rw [hgit]⟩, ?_, fun _ => hgit, ?_, ?_⟩
    · intro hc _; exact absurd h1 (by rw [hc]; simp)
    · intro hc _; exact absurd h1 (by rw [hc]; simp)
    · intro _ _
      rw [hgit]
      exact ‹isAncestor w.git w.git.mainTip w.git.editTip = true›
  · have h1f : isAncestor w.git sha w.git.mainTip = false :=
      Bool.eq_false_iff.mpr h1
    by_cases h2 : isAncestor w.git w.git.mainTip sha = true
    · have hne : (w.git.mainTip == sha) = false := by
        rcases hbe : w.git.mainTip == sha with _ | _
        · rfl
        · exfalso
          have : w.git.mainTip = sha := by simpa using hbe
          apply h1
          subst this
          unfold isAncestor ancWalk
          simp
      have hlk := isAncestor_lookup w.git w.git.mainTip sha h2 hne
      rcases hl : List.lookup sha w.git.commits with _ | c
      · rw [hl] at hlk; simp at hlk
      · have hgit : (mergeToMain sha w).2.git =
            { w.git with mainTip := sha, mainFiles := c.tree } := by
          unfold mergeToMain
          dsimp only
          rw [if_neg (by rw [h1f]; exact Bool.false_ne_true), if_pos h2, hl]
          dsimp only
          exact (importBranch_preserve "main" _).1
        refine ⟨⟨by rw [hgit], by rw [hgit]⟩, ?_, ?_, fun _ _ => by rw [hgit], ?_⟩
        · intro _ hc; exact absurd h2 (by rw [hc]; simp)
        · intro hc; exact absurd hc (by rw [h1f]; simp)
        · intro hme hse
          rw [hgit]
          have hcomm :
              ({ w.git with mainTip := sha, mainFiles := c.tree } : GitState).commits
                = w.git.commits := rfl
          unfold isAncestor
          rw [hcomm]
          exact hse
    · have h2f : isAncestor w.git w.git.mainTip sha = false :=
        Bool.eq_false_iff.mpr h2
      have hres : mergeToMain sha w =
          (Except.error ("Failed to merge " ++ toString sha ++ " to main"),
           { w with merges := w.merges ++ [sha] }) := by
        unfold mergeToMain
        dsimp only
        rw [if_neg (by rw [h1f]; exact Bool.false_ne_true),
            if_neg (by rw [h2f]; exact Bool.false_ne_true)]
      refine ⟨⟨by rw [hres], by rw [hres]⟩,
        fun _ _ => ⟨⟨_, by rw [hres]⟩, by rw [hres]⟩, ?_, ?_, ?_⟩
      · intro hc; exact absurd hc (by rw [h1f]; simp)
      · intro _ hc; exact absurd hc (by rw [h2f]; simp)
      · intro hme _
        rw [hres]
        exact hme

/-- Witness for C7 amended statement: the divergence case on a store
with two root commits, where the merge errors and the git state is
untouched, and the fast-forward case on the linear store. -/
theorem mergeToMain_ffonly_witness :
    ((mergeToMain 1 wC7).2.git = wC7.git) ∧
    ((∃ e, (mergeToMain 5 wC7).1 = Except.error e) ∧
     (mergeToMain 5 wC7).2.git = wC7.git) ∧
    ((mergeToMain 1
        { wC7 with git := { wC7.git with mainTip := 0 } }).2.git.mainTip = 1) ∧
    (isAncestor (mergeToMain 1 wC7).2.git
       (mergeToMain 1 wC7).2.git.mainTip
       (mergeToMain 1 wC7).2.git.editTip = true) :=
  ⟨(mergeToMain_ffonly wC7 1).2.2.1 rfl,
   (mergeToMain_ffonly wC7 5).2.1 rfl rfl,
   (mergeToMain_ffonly { wC7 with git := { wC7.git with mainTip := 0 } } 1).2.2.2.1
     rfl rfl,
   (mergeToMain_ffonly wC7 1).2.2.2.2 rfl rfl⟩

/-- Looking up a key in a list filtered to exclude it yields nothing. -/
theorem lookup_filter_self {α : Type} (l : List (String × α)) (p : String) :
    List.lookup p (l.filter (fun kv => kv.1 != p)) = Option.none := by
  induction l with
  | nil => rfl
  | cons kv l ih =>
    rw [List.filter_cons]
    by_cases hk : (kv.1 != p) = true
    · rw [if_pos hk]
      have hne : (p == kv.1) = false :=
        beq_eq_false_iff_ne.mpr (Ne.symm (by simpa using hk))
      simp only [List.lookup, hne]
      exact ih
    · rw [if_neg hk]
      exact ih

/-- find? for a key in a list filtered to exclude it yields nothing. -/
theorem find_filter_self {α : Type} (l : List (String × α)) (p : String) :
    (l.filter (fun d => d.1 != p)).find? (fun d => d.1 == p) = Option.none := by
  induction l with
  | nil => rfl
  | cons d l ih =>
    rw [List.filter_cons]
    by_cases hk : (d.1 != p) = true
    · rw [if_pos hk]
      have hne : (d.1 == p) = false := by
        simpa [bne] using hk
      rw [List.find?_cons_of_neg _ (by simp [hne])]
      exact ih
    · rw [if_neg hk]
      exact ih

/-- An in-place value update keeps the key set of an association list:
lookup presence is unchanged. -/
theorem lookup_isSome_upd {α : Type} (l : List (String × α)) (p q : String)
    (f : String × α → α) :
    (List.lookup q (l.map fun kv => if kv.1 == p then (p, f kv) else kv)).isSome
      = (List.lookup q l).isSome := by
  induction l with
  | nil => rfl
  | cons kv l ih =>
    rw [List.map_cons]
    by_cases hk : (kv.1 == p) = true
    · have hkp : kv.1 = p := by simpa using hk
      rw [if_pos hk]
      simp only [List.lookup, hkp]
      cases hq : q == p
      · simpa only [hq] using ih
      · simp [hq]
    · have hkf : (kv.1 == p) = false := by simpa using hk
      rw [if_neg (by simp [hkf])]
      simp only [List.lookup]
      cases hq : q == kv.1
      · simpa only [hq] using ih
      · simp [hq]

/-- Same statement for find? presence. -/
theorem find_isSome_upd {α : Type} (l : List (String × α)) (p q : String)
    (f : String × α → α) :
    ((l.map fun d => if d.1 == p then (p, f d) else d).find?
        (fun d => d.1 == q)).isSome
      = (l.find? (fun d => d.1 == q)).isSome := by
  induction l with
  | nil => rfl
  | cons d l ih =>
    rw [List.map_cons]
    by_cases hk : (d.1 == p) = true
    · have hkp : d.1 = p := by simpa using hk
      rw [if_pos hk]
      by_cases hq : (p == q) = true
      · rw [List.find?_cons_of_pos _ (by simpa using hq),
            List.find?_cons_of_pos _ (by rw [hkp]; simpa using hq)]
        rfl
      · have hqf : (p == q) = false := by simpa using hq
        rw [List.find?_cons_of_neg _ (by simp [hqf]),
            List.find?_cons_of_neg _ (by rw [hkp]; simp [hqf])]
        exact ih
    · have hkf : (d.1 == p) = false := by simpa using hk
      rw [if_neg (by simp [hkf])]
      by_cases hq : (d.1 == q) = true
      · rw [List.find?_cons_of_pos _ (by simpa using hq),
            List.find?_cons_of_pos _ (by simpa using hq)]
      · have hqf : (d.1 == q) = false := by simpa using hq
        rw [List.find?_cons_of_neg _ (by simp [hqf]),
            List.find?_cons_of_neg _ (by simp [hqf])]
        exact ih

/-- An in-place update whose payload is insensitive to a repeated
update is idempotent on the list. -/
theorem map_upd_idem {α : Type} (l : List (String × α)) (p : String)
    (f : String × α → α) (hf : ∀ d, f (p, f d) = f d) :
    ((l.map fun d => if d.1 == p then (p, f d) else d).map
        fun d => if d.1 == p then (p, f d) else d) =
      l.map fun d => if d.1 == p then (p, f d) else d := by
  rw [List.map_map]
  apply List.map_congr_left
  intro d _
  by_cases hk : (d.1 == p) = true
  · simp only [Function.comp_apply, if_pos hk]
    have hpp : ((p, f d) : String × α).1 == p := by simp
    rw [if_pos hpp, hf d]
  · have hne : ¬(d.1 = p) := by simpa using hk
    simp [Function.comp_apply, hne]

theorem execAddDisk_host (r : Row) (h : Host) : (execAddDisk r h).2 = h := by
  unfold execAddDisk
  dsimp only
  split
  · rfl
  · split
    · rfl
    · rfl

theorem execReleaseDisk_host (r : Row) (h : Host) :
    (execReleaseDisk r h).2 = h := by
  unfold execReleaseDisk
  dsimp only
  split
  · rfl
  · split
    · rfl
    · rfl

theorem mkdirP_entry (h : Host) (p : String) :
    (dirEntry (mkdirP h p) p).isSome = true := by
  unfold mkdirP
  split
  · rename_i hs; simpa using hs
  · rename_i hs
    unfold dirEntry
    dsimp only
    rw [List.find?_append]
    have hn : h.dirs.find? (fun d => d.1 == p) = Option.none := by
      rcases hf : h.dirs.find? (fun d => d.1 == p) with _ | d
      · exact hf
      · exfalso
        apply hs
        unfold dirEntry
        rw [hf]
        rfl
    rw [hn]
    simp

theorem mkdirP_idem (h : Host) (p : String)
    (hs : (dirEntry h p).isSome = true) : mkdirP h p = h := by
  unfold mkdirP
  rw [if_pos hs]

theorem dirEntry_chmod_isSome (h : Host) (p m q : String) :
    (dirEntry (chmodDir h p m) q).isSome = (dirEntry h q).isSome := by
  unfold dirEntry chmodDir
  dsimp only
  rw [Option.isSome_map', Option.isSome_map']
  exact find_isSome_upd h.dirs p q (fun d => (m, d.2.2))

theorem chmod_idem (h : Host) (p m : String) :
    chmodDir (chmodDir h p m) p m = chmodDir h p m := by
  unfold chmodDir
  dsimp only
  rw [map_upd_idem h.dirs p (fun d => (m, d.2.2)) (fun d => rfl)]

theorem remount_isMounted (h : Host) (p o q : String) :
    isMountpoint (remountHost h p o) q = isMountpoint h q := by
  unfold isMountpoint remountHost
  dsimp only
  exact lookup_isSome_upd h.mounts p q (fun kv => o)

theorem remount_idem (h : Host) (p o : String) :
    remountHost (remountHost h p o) p o = remountHost h p o := by
  unfold remountHost
  dsimp only
  rw [map_upd_idem h.mounts p (fun kv => o) (fun d => rfl)]

theorem umount_not_mounted (h : Host) (p : String) :
    isMountpoint (umountHost h p) p = false := by
  unfold isMountpoint umountHost
  dsimp only
  rw [lookup_filter_self]
  rfl

theorem rmdir_entry (h : Host) (p : String) :
    dirEntry (rmdirHost h p) p = Option.none := by
  unfold dirEntry rmdirHost
  dsimp only
  rw [find_filter_self]
  rfl

/-- C8: for every registered Command and resource description, if
execute reports applied then re-executing the same description against
the host state the first call left behind reports applied again and
makes no further change to the host. -/
theorem command_idempotent (c : Cmd) (r : Row) (h : Host)
    (happ : (execute c r h).1.status = .applied) :
    (execute c r (execute c r h).2).1.status = .applied ∧
    (execute c r (execute c r h).2).2 = (execute c r h).2 := by
  cases c
  case addDisk =>
    simp only [execute] at happ ⊢
    rw [execAddDisk_host]
    exact ⟨happ, execAddDisk_host r h⟩
  case editDisk =>
    exact ⟨rfl, rfl⟩
  case releaseDisk =>
    simp only [execute] at happ ⊢
    rw [execReleaseDisk_host]
    exact ⟨happ, execReleaseDisk_host r h⟩
  case addMount =>
    simp only [execute] at happ ⊢
    by_cases ht : (!jvalTruthy (pyGet r "mountpoint")) = true
    · exfalso
      unfold execAddMount at happ
      dsimp only at happ
      rw [if_pos ht] at happ
      exact absurd happ (by simp [failedRes])
    · have h2 : (execAddMount r h).2 = mkdirP h (jvalStr (pyGet r "mountpoint")) := by
        unfold execAddMount
        dsimp only
        rw [if_neg ht]
      rw [h2]
      constructor
      · unfold execAddMount
        dsimp only
        rw [if_neg ht]
        rfl
      · unfold execAddMount
        dsimp only
        rw [if_neg ht]
        exact mkdirP_idem _ _ (mkdirP_entry h _)
  case editMount =>
    simp only [execute] at happ ⊢
    by_cases ht : (!jvalTruthy (pyGet r "mountpoint")) = true
    · exfalso
      unfold execEditMount at happ
      dsimp only at happ
      rw [if_pos ht] at happ
      exact absurd happ (by simp [failedRes])
    · by_cases hm : isMountpoint h (jvalStr (pyGet r "mountpoint")) = true
      · have h2 : (execEditMount r h).2 =
            remountHost h (jvalStr (pyGet r "mountpoint"))
              (jvalStr (pyGetD r "options" (.s "defaults"))) := by
          unfold execEditMount
          dsimp only
          rw [if_neg ht, if_pos hm]
        rw [h2]
        have hm2 : isMountpoint
            (remountHost h (jvalStr (pyGet r "mountpoint"))
              (jvalStr (pyGetD r "options" (.s "defaults"))))
            (jvalStr (pyGet r "mountpoint")) = true := by
          rw [remount_isMounted]
          exact hm
        constructor
        · unfold execEditMount
          dsimp only
          rw [if_neg ht, if_pos hm2]
          rfl
        · unfold execEditMount
          dsimp only
          rw [if_neg ht, if_pos hm2]
          exact remount_idem h _ _
      · exfalso
        unfold execEditMount at happ
        dsimp only at happ
        rw [if_neg ht, if_neg hm] at happ
        exact absurd happ (by simp [failedRes])
  case releaseMount =>
    simp only [execute] at happ ⊢
    by_cases ht : (!jvalTruthy (pyGet r "mountpoint")) = true
    · exfalso
      unfold execReleaseMount at happ
      dsimp only at happ
      rw [if_pos ht] at happ
      exact absurd happ (by simp [failedRes])
    · by_cases hm : (!isMountpoint h (jvalStr (pyGet r "mountpoint"))) = true
      · have h2 : (execReleaseMount r h).2 = h := by
          unfold execReleaseMount
          dsimp only
          rw [if_neg ht, if_pos hm]
        rw [h2]
        constructor
        · unfold execReleaseMount
          dsimp only
          rw [if_neg ht, if_pos hm]
          rfl
        · unfold execReleaseMount
          dsimp only
          rw [if_neg ht, if_pos hm]
      · have h2 : (execReleaseMount r h).2 =
            umountHost h (jvalStr (pyGet r "mountpoint")) := by
          unfold execReleaseMount
          dsimp only
          rw [if_neg ht, if_neg hm]
        rw [h2]
        have hm2 : (!isMountpoint
            (umountHost h (jvalStr (pyGet r "mountpoint")))
            (jvalStr (pyGet r "mountpoint"))) = true := by
          rw [umount_not_mounted]
          rfl
        constructor
        · unfold execReleaseMount
          dsimp only
          rw [if_neg ht, if_pos hm2]
          rfl
        · unfold execReleaseMount
          dsimp only
          rw [if_neg ht, if_pos hm2]
  case addPath =>
    simp only [execute] at happ ⊢
    by_cases ht : (!jvalTruthy (pyGet r "path")) = true
    · exfalso
      unfold execAddPath at happ
      dsimp only at happ
      rw [if_pos ht] at happ
      exact absurd happ (by simp [failedRes])
    · have h2 : (execAddPath r h).2 =
          chmodDir (mkdirP h (jvalStr (pyGet r "path")))
            (jvalStr (pyGet r "path"))
            (jvalStr (pyGetD r "mode" (.s "0755"))) := by
        unfold execAddPath
        dsimp only
        rw [if_neg ht]
      rw [h2]
      have hent : (dirEntry
          (chmodDir (mkdirP h (jvalStr (pyGet r "path")))
            (jvalStr (pyGet r "path"))
            (jvalStr (pyGetD r "mode" (.s "0755"))))
          (jvalStr (pyGet r "path"))).isSome = true := by
        rw [dirEntry_chmod_isSome]
        exact mkdirP_entry h _
      constructor
      · unfold execAddPath
        dsimp only
        rw [if_neg ht]
        rfl
      · unfold execAddPath
        dsimp only
        rw [if_neg ht]
        dsimp only
        rw [mkdirP_idem _ _ hent]
        exact chmod_idem _ _ _
  case editPath =>
    simp only [execute] at happ ⊢
    by_cases ht : (!jvalTruthy (pyGet r "path")) = true
    · exfalso
      unfold execEditPath at happ
      dsimp only at happ
      rw [if_pos ht] at happ
      exact absurd happ (by simp [failedRes])
    · by_cases hd : (dirEntry h (jvalStr (pyGet r "path"))).isSome = true
      · have h2 : (execEditPath r h).2 =
            chmodDir h (jvalStr (pyGet r "path"))
              (jvalStr (pyGetD r "mode" (.s "0755"))) := by
          unfold execEditPath
          dsimp only
          rw [if_neg ht, if_pos hd]
        rw [h2]
        have hd2 : (dirEntry
            (chmodDir h (jvalStr (pyGet r "path"))
              (jvalStr (pyGetD r "mode" (.s "0755"))))
            (jvalStr (pyGet r "path"))).isSome = true := by
          rw [dirEntry_chmod_isSome]
          exact hd
        constructor
        · unfold execEditPath
          dsimp only
          rw [if_neg ht, if_pos hd2]
          rfl
        · unfold execEditPath
          dsimp only
          rw [if_neg ht, if_pos hd2]
          exact chmod_idem h _ _
      · exfalso
        unfold execEditPath at happ
        dsimp only at happ
        rw [if_neg ht, if_neg hd] at happ
        exact absurd happ (by simp [failedRes])
  case deletePath =>
    simp only [execute] at happ ⊢
    by_cases ht : (!jvalTruthy (pyGet r "path")) = true
    · exfalso
      unfold execDeletePath at happ
      dsimp only at happ
      rw [if_pos ht] at happ
      exact absurd happ (by simp [failedRes])
    · rcases hde : dirEntry h (jvalStr (pyGet r "path")) with _ | d
      · have h2 : (execDeletePath r h).2 = h := by
          unfold execDeletePath
          dsimp only
          rw [if_neg ht, hde]
        rw [h2]
        constructor
        · unfold execDeletePath
          dsimp only
          rw [if_neg ht, hde]
          rfl
        · unfold execDeletePath
          dsimp only
          rw [if_neg ht, hde]
      · by_cases he : (!d.2) = true
        · exfalso
          unfold execDeletePath at happ
          dsimp only at happ
          rw [if_neg ht, hde] at happ
          dsimp only at happ
          rw [if_pos he] at happ
          exact absurd happ (by simp [failedRes])
        · have h2 : (execDeletePath r h).2 =
              rmdirHost h (jvalStr (pyGet r "path")) := by
            unfold execDeletePath
            dsimp only
            rw [if_neg ht, hde]
            dsimp only
            rw [if_neg he]
          rw [h2]
          have hd2 : dirEntry (rmdirHost h (jvalStr (pyGet r "path")))
              (jvalStr (pyGet r "path")) = Option.none := rmdir_entry h _
          constructor
          · unfold execDeletePath
            dsimp only
            rw [if_neg ht, hd2]
            rfl
          · unfold execDeletePath
            dsimp only
            rw [if_neg ht, hd2]

/-- Witness for C8: releasing an actually-mounted mount applies, and
the repeated release applies with no further host change. -/
theorem command_idempotent_witness :
    (execute .releaseMount [("mountpoint", JVal.s "/mnt/a")]
        ⟨[], [("/mnt/a", "defaults")], []⟩).1.status = .applied ∧
    ((execute .releaseMount [("mountpoint", JVal.s "/mnt/a")]
        (execute .releaseMount [("mountpoint", JVal.s "/mnt/a")]
          ⟨[], [("/mnt/a", "defaults")], []⟩).2).1.status = .applied ∧
     (execute .releaseMount [("mountpoint", JVal.s "/mnt/a")]
        (execute .releaseMount [("mountpoint", JVal.s "/mnt/a")]
          ⟨[], [("/mnt/a", "defaults")], []⟩).2).2 =
       (execute .releaseMount [("mountpoint", JVal.s "/mnt/a")]
          ⟨[], [("/mnt/a", "defaults")], []⟩).2) :=
  ⟨rfl, command_idempotent .releaseMount [("mountpoint", JVal.s "/mnt/a")]
    ⟨[], [("/mnt/a", "defaults")], []⟩ rfl⟩

/-- C9 counterexample: EditDisk is a disk command, yet executing it on
a resource with no device field returns applied, not a failure naming
the missing field — the claim universal validation clause fails. -/
theorem editDisk_no_validation_counterexample :
    pyGet ([] : Row) "device" = JVal.null ∧
    execute .editDisk [] ⟨[], [], []⟩ = (appliedRes, ⟨[], [], []⟩) ∧
    appliedRes.status ≠ CommandStatus.failed :=
  ⟨rfl, rfl, by decide⟩

/-- C9 (amended): every Command execute is total and returns one of
applied, blocked or failed; every command except the stub EditDisk
validates its required field (device for disk add/release, mountpoint
for mount commands, path for path commands) before touching the host,
failing with an error naming the field and leaving the host unchanged;
a still-mounted device makes ReleaseDisk fail with a human-readable
reason; a non-empty directory makes DeletePath fail likewise; and
resources already matching the desired state (mount already released,
path already absent) report applied as a no-op. -/
theorem command_error_contract (c : Cmd) (r : Row) (h : Host) :
    ((execute c r h).1.status = .applied ∨ (execute c r h).1.status = .blocked ∨
     (execute c r h).1.status = .failed) ∧
    (∀ f, reqField c = some f → jvalTruthy (pyGet r f) = false →
       (execute c r h).1 = failedRes (f ++ " is required") ∧
       (execute c r h).2 = h) ∧
    (jvalTruthy (pyGet r "device") = true →
       isMountpoint h (jvalStr (pyGet r "device")) = true →
       execute .releaseDisk r h =
         (failedRes (jvalStr (pyGet r "device") ++ " is still mounted"), h)) ∧
    (∀ m, jvalTruthy (pyGet r "path") = true →
       dirEntry h (jvalStr (pyGet r "path")) = some (m, false) →
       execute .deletePath r h =
         (failedRes ("Directory " ++ jvalStr (pyGet r "path") ++ " is not empty"),
          h)) ∧
    (jvalTruthy (pyGet r "mountpoint") = true →
       isMountpoint h (jvalStr (pyGet r "mountpoint")) = false →
       execute .releaseMount r h = (appliedRes, h)) ∧
    (jvalTruthy (pyGet r "path") = true →
       dirEntry h (jvalStr (pyGet r "path")) = Option.none →
       execute .deletePath r h = (appliedRes, h)) := by
  refine ⟨?_, ?_, ?_, ?_, ?_, ?_⟩
  · rcases hst : (execute c r h).1.status with _ | _ | _
    · exact Or.inl rfl
    · exact Or.inr (Or.inl rfl)
    · exact Or.inr (Or.inr rfl)
  · intro f hf ht
    cases c
    case editDisk => exact absurd hf (by simp [reqField])
    case addDisk =>
      have hfd : f = "device" := by
        have := hf
        simp [reqField] at this
        exact this.symm
      subst hfd
      simp only [execute]
      unfold execAddDisk
      dsimp only
      rw [if_pos (by simp [ht])]
      exact ⟨rfl, rfl⟩
    case releaseDisk =>
      have hfd : f = "device" := by
        have := hf
        simp [reqField] at this
        exact this.symm
      subst hfd
      simp only [execute]
      unfold execReleaseDisk
      dsimp only
      rw [if_pos (by simp [ht])]
      exact ⟨rfl, rfl⟩
    case addMount =>
      have hfd : f = "mountpoint" := by
        have := hf
        simp [reqField] at this
        exact this.symm
      subst hfd
      simp only [execute]
      unfold execAddMount
      dsimp only
      rw [if_pos (by simp [ht])]
      exact ⟨rfl, rfl⟩
    case editMount =>
      have hfd : f = "mountpoint" := by
        have := hf
        simp [reqField] at this
        exact this.symm
      subst hfd
      simp only [execute]
      unfold execEditMount
      dsimp only
      rw [if_pos (by simp [ht])]
      exact ⟨rfl, rfl⟩
    case releaseMount =>
      have hfd : f = "mountpoint" := by
        have := hf
        simp [reqField] at this
        exact this.symm
      subst hfd
      simp only [execute]
      unfold execReleaseMount
      dsimp only
      rw [if_pos (by simp [ht])]
      exact ⟨rfl, rfl⟩
    case addPath =>
      have hfd : f = "path" := by
        have := hf
        simp [reqField] at this
        exact this.symm
      subst hfd
      simp only [execute]
      unfold execAddPath
      dsimp only
      rw [if_pos (by simp [ht])]
      exact ⟨rfl, rfl⟩
    case editPath =>
      have hfd : f = "path" := by
        have := hf
        simp [reqField] at this
        exact this.symm
      subst hfd
      simp only [execute]
      unfold execEditPath
      dsimp only
      rw [if_pos (by simp [ht])]
      exact ⟨rfl, rfl⟩
    case deletePath =>
      have hfd : f = "path" := by
        have := hf
        simp [reqField] at this
        exact this.symm
      subst hfd
      simp only [execute]
      unfold execDeletePath
      dsimp only
      rw [if_pos (by simp [ht])]
      exact ⟨rfl, rfl⟩
  · intro hd hm
    simp only [execute]
    unfold execReleaseDisk
    dsimp only
    rw [if_neg (by simp [hd]), if_pos hm]
  · intro m hp hde
    simp only [execute]
    unfold execDeletePath
    dsimp only
    rw [if_neg (by simp [hp]), hde]
    rfl
  · intro hm hnm
    simp only [execute]
    unfold execReleaseMount
    dsimp only
    rw [if_neg (by simp [hm]), if_pos (by simp [hnm])]
  · intro hp hde
    simp only [execute]
    unfold execDeletePath
    dsimp only
    rw [if_neg (by simp [hp]), hde]

/-- Witness for C9 amended statement: concrete instances of the
validation failure (AddDisk with no device), the still-mounted refusal,
the non-empty-directory refusal, and the two no-op cases. -/
theorem command_error_contract_witness :
    ((execute .addDisk [] ⟨[], [], []⟩).1 = failedRes ("device" ++ " is required") ∧
     (execute .addDisk [] ⟨[], [], []⟩).2 = ⟨[], [], []⟩) ∧
    execute .releaseDisk [("device", JVal.s "/dev/sdb")]
        ⟨[], [("/dev/sdb", "rw")], []⟩ =
      (failedRes ("/dev/sdb" ++ " is still mounted"),
       ⟨[], [("/dev/sdb", "rw")], []⟩) ∧
    execute .deletePath [("path", JVal.s "/a")] ⟨[], [], [("/a", "0755", false)]⟩ =
      (failedRes ("Directory " ++ "/a" ++ " is not empty"),
       ⟨[], [], [("/a", "0755", false)]⟩) ∧
    execute .releaseMount [("mountpoint", JVal.s "/mnt/a")] ⟨[], [], []⟩ =
      (appliedRes, ⟨[], [], []⟩) ∧
    execute .deletePath [("path", JVal.s "/a")] ⟨[], [], []⟩ =
      (appliedRes, ⟨[], [], []⟩) :=
  ⟨(command_error_contract .addDisk [] ⟨[], [], []⟩).2.1 "device" rfl rfl,
   (command_error_contract .releaseDisk [("device", JVal.s "/dev/sdb")]
      ⟨[], [("/dev/sdb", "rw")], []⟩).2.2.1 rfl rfl,
   (command_error_contract .deletePath [("path", JVal.s "/a")]
      ⟨[], [], [("/a", "0755", false)]⟩).2.2.2.1 "0755" rfl rfl,
   (command_error_contract .releaseMount [("mountpoint", JVal.s "/mnt/a")]
      ⟨[], [], []⟩).2.2.2.2.1 rfl rfl,
   (command_error_contract .deletePath [("path", JVal.s "/a")]
      ⟨[], [], []⟩).2.2.2.2.2 rfl rfl⟩

/-- C4 counterexample: writing the empty row list succeeds (commit 2),
but the subsequent getDesired still returns the previous disk row —
_import_from_branch skips empty export documents, so the cache is never
cleared and the read does not equal the written rows. -/
theorem writeIntent_empty_counterexample :
    (writeToEdit "disks" [] "wipe disks" wE2).1 = Except.ok 2 ∧
    (getResources "edit" "disks" wE3).1 = Except.ok [diskFullE] ∧
    ([diskFullE] : List Row) ≠ [] :=
  ⟨rfl, rfl, by decide⟩

theorem lookup_map_set {α : Type} (l : List (String × α)) (k : String) (v : α)
    (hs : (List.lookup k l).isSome = true) :
    List.lookup k (l.map fun kv => if kv.1 == k then (k, v) else kv) = some v := by
  induction l with
  | nil => simp at hs
  | cons kv l ih =>
    rw [List.map_cons]
    by_cases hk : (kv.1 == k) = true
    · rw [if_pos hk]
      simp [List.lookup]
    · have hkf : (kv.1 == k) = false := by simpa using hk
      rw [if_neg (by simp [hkf])]
      have hkq : (k == kv.1) = false :=
        beq_eq_false_iff_ne.mpr (Ne.symm (by simpa using hk))
      simp only [List.lookup, hkq]
      apply ih
      simpa [List.lookup, hkq] using hs

theorem lookup_append_last {α : Type} (l : List (String × α)) (k : String) (v : α)
    (hn : List.lookup k l = Option.none) :
    List.lookup k (l ++ [(k, v)]) = some v := by
  induction l with
  | nil => simp [List.lookup]
  | cons kv l ih =>
    rw [List.cons_append]
    cases hq : k == kv.1
    · simp only [List.lookup, hq]
      apply ih
      simpa [List.lookup, hq] using hn
    · exfalso
      rw [show List.lookup k (kv :: l) =
          match k == kv.1 with
          | true => some kv.2
          | false => List.lookup k l from rfl, hq] at hn
      simp at hn

/-- Writing a key into a Python dict makes it readable. -/
theorem lookup_setTable_self {α : Type} (l : List (String × α)) (k : String)
    (v : α) : List.lookup k (setTable l k v) = some v := by
  unfold setTable
  split
  · rename_i hs
    exact lookup_map_set l k v hs
  · rename_i hs
    have hn : List.lookup k l = Option.none := by
      rcases hx : List.lookup k l with _ | x
      · rfl
      · rw [hx] at hs; simp at hs
    exact lookup_append_last l k v hn

theorem lookup_map_set_ne {α : Type} (l : List (String × α)) (k q : String)
    (v : α) (hqk : (q == k) = false) :
    List.lookup q (l.map fun kv => if kv.1 == k then (k, v) else kv) =
      List.lookup q l := by
  induction l with
  | nil => rfl
  | cons kv l ih =>
    rw [List.map_cons]
    by_cases hk : (kv.1 == k) = true
    · have hkp : kv.1 = k := by simpa using hk
      rw [if_pos hk]
      simp only [List.lookup, hkp, hqk]
      exact ih
    · rw [if_neg (by simpa using hk)]
      simp only [List.lookup]
      cases hqv : q == kv.1
      · exact ih
      · rfl

theorem lookup_append_ne {α : Type} (l : List (String × α)) (k q : String)
    (v : α) (hqk : (q == k) = false) :
    List.lookup q (l ++ [(k, v)]) = List.lookup q l := by
  induction l with
  | nil => simp [List.lookup, hqk]
  | cons kv l ih =>
    rw [List.cons_append]
    simp only [List.lookup]
    cases hqv : q == kv.1
    · exact ih
    · rfl

/-- Writing one key leaves the other keys of a Python dict unchanged. -/
theorem lookup_setTable_ne {α : Type} (l : List (String × α)) (k q : String)
    (v : α) (hq : q ≠ k) :
    List.lookup q (setTable l k v) = List.lookup q l := by
  have hqk : (q == k) = false := beq_eq_false_iff_ne.mpr hq
  unfold setTable
  split
  · exact lookup_map_set_ne l k q v hqk
  · exact lookup_append_ne l k q v hqk

/-- A row whose keys are distinct is rebuilt exactly by looking every
key back up. -/
theorem keys_rebuild (r : Row) (hnd : (r.map Prod.fst).Nodup) :
    (r.map Prod.fst).map (fun n => (n, (List.lookup n r).getD JVal.null)) = r := by
  induction r with
  | nil => rfl
  | cons kv r ih =>
    rw [List.map_cons] at hnd
    obtain ⟨hknotin, hndr⟩ := List.nodup_cons.mp hnd
    rw [List.map_cons, List.map_cons]
    have hk : (List.lookup kv.1 (kv :: r)).getD JVal.null = kv.2 := by
      simp [List.lookup]
    rw [hk]
    have hinner : (r.map Prod.fst).map
        (fun n => (n, (List.lookup n (kv :: r)).getD JVal.null)) =
        (r.map Prod.fst).map
          (fun n => (n, (List.lookup n r).getD JVal.null)) := by
      apply List.map_congr_left
      intro n hn
      have hne : (n == kv.1) = false := by
        refine beq_eq_false_iff_ne.mpr ?_
        intro hcon
        exact hknotin (hcon ▸ hn)
      simp [List.lookup, hne]
    rw [hinner, ih hndr]

/-- A faithful INSERT of a row carrying exactly the schema columns with
its NOT-NULL fields present and a fresh id appends the row unchanged. -/
theorem sqliteInsert_full (schema : List Col) (now : String)
    (tbl : List Row) (r : Row)
    (hnd : (schema.map Col.name).Nodup)
    (hkeys : r.map Prod.fst = schema.map Col.name)
    (hnn : (schema.all (fun sc =>
        !sc.notNull ||
          (List.lookup sc.name r).getD JVal.null ≠ JVal.null)) = true)
    (hnotin : tbl.any (fun r0 =>
        (List.lookup "id" r0).getD JVal.null ==
        (List.lookup "id" r).getD JVal.null) = false) :
    sqliteInsert schema now (schema.map Col.name) tbl r =
      Except.ok (tbl ++ [r]) := by
  have hcols : ((schema.map Col.name).all
      (fun c => schema.any (fun sc => sc.name == c))) = true := by
    rw [List.all_eq_true]
    intro c hc
    obtain ⟨sc, hsc, hscn⟩ := List.mem_map.mp hc
    exact List.any_eq_true.mpr ⟨sc, hsc, by rw [hscn]; simp⟩
  have hfull : (schema.map (fun sc =>
      ((sc.name : String),
        if (schema.map Col.name).contains sc.name then
          (List.lookup sc.name r).getD JVal.null
        else match sc.dflt with
          | .ts => JVal.s now
          | .val v => v
          | .none => JVal.null))) = r := by
    have h1 : (schema.map (fun sc =>
        ((sc.name : String),
          if (schema.map Col.name).contains sc.name then
            (List.lookup sc.name r).getD JVal.null
          else match sc.dflt with
            | .ts => JVal.s now
            | .val v => v
            | .none => JVal.null))) =
        schema.map (fun sc =>
          (sc.name, (List.lookup sc.name r).getD JVal.null)) := by
      apply List.map_congr_left
      intro sc hsc
      have hm : sc.name ∈ schema.map Col.name := List.mem_map_of_mem Col.name hsc
      rw [if_pos (by simpa using hm)]
    rw [h1]
    have h2 : schema.map (fun sc =>
        (sc.name, (List.lookup sc.name r).getD JVal.null)) =
        (schema.map Col.name).map
          (fun n => (n, (List.lookup n r).getD JVal.null)) := by
      rw [List.map_map]
      rfl
    rw [h2, ← hkeys]
    exact keys_rebuild r (by rw [hkeys]; exact hnd)
  unfold sqliteInsert
  rw [if_pos hcols]
  dsimp only
  rw [hfull]
  rw [if_pos hnn]
  rw [if_neg ?hcond]
  case hcond =>
    rintro ⟨_, hany⟩
    rw [hnotin] at hany
    exact Bool.false_ne_true hany

/-- The import fold appends well-formed rows unchanged. -/
theorem foldl_insert_full (schema : List Col) (now : String)
    (hnd : (schema.map Col.name).Nodup) :
    ∀ (rows tbl : List Row),
    (∀ r ∈ rows, r.map Prod.fst = schema.map Col.name) →
    (∀ r ∈ rows, (schema.all (fun sc =>
        !sc.notNull ||
          (List.lookup sc.name r).getD JVal.null ≠ JVal.null)) = true) →
    (∀ r ∈ rows, ∀ r0 ∈ tbl,
        ((List.lookup "id" r0).getD JVal.null ==
         (List.lookup "id" r).getD JVal.null) = false) →
    List.Pairwise (fun r1 r2 =>
        ((List.lookup "id" r1).getD JVal.null ==
         (List.lookup "id" r2).getD JVal.null) = false) rows →
    rows.foldlM (fun tbl r =>
        sqliteInsert schema now (schema.map Col.name) tbl r) tbl
      = Except.ok (tbl ++ rows) := by
  intro rows
  induction rows with
  | nil => intro tbl _ _ _ _; simp [pure, Except.pure]
  | cons r rows ih =>
    intro tbl hkeys hnn htbl hpw
    rw [List.foldlM_cons]
    have hany : tbl.any (fun r0 =>
        (List.lookup "id" r0).getD JVal.null ==
        (List.lookup "id" r).getD JVal.null) = false :=
      List.any_eq_false.mpr (fun r0 h0 => by
        rw [htbl r (by simp) r0 h0]
        exact Bool.false_ne_true)
    rw [sqliteInsert_full schema now tbl r hnd (hkeys r (by simp))
      (hnn r (by simp)) hany]
    obtain ⟨hpwh, hpwt⟩ := List.pairwise_cons.mp hpw
    have := ih (tbl ++ [r])
      (fun r' hr' => hkeys r' (by simp [hr']))
      (fun r' hr' => hnn r' (by simp [hr']))
      (fun r' hr' r0 h0 => by
        rcases List.mem_append.mp h0 with h0l | h0r
        · exact htbl r' (by simp [hr']) r0 h0l
        · have : r0 = r := by simpa using h0r
          subst this
          exact hpwh r' hr')
      hpwt
    rw [show (Except.ok (tbl ++ [r]) >>= fun tbl =>
        rows.foldlM (fun tbl r =>
          sqliteInsert schema now (schema.map Col.name) tbl r) tbl)
        = rows.foldlM (fun tbl r =>
            sqliteInsert schema now (schema.map Col.name) tbl r)
          (tbl ++ [r]) from rfl]
    rw [this]
    simp

/-- A nonempty, well-formed export document imports as exactly itself. -/
theorem importTableRows_id (schema : List Col) (now : String)
    (rows : List Row) (hne : rows ≠ [])
    (hnd : (schema.map Col.name).Nodup)
    (hkeys : ∀ r ∈ rows, r.map Prod.fst = schema.map Col.name)
    (hnn : ∀ r ∈ rows, (schema.all (fun sc =>
        !sc.notNull ||
          (List.lookup sc.name r).getD JVal.null ≠ JVal.null)) = true)
    (hpw : List.Pairwise (fun r1 r2 =>
        ((List.lookup "id" r1).getD JVal.null ==
         (List.lookup "id" r2).getD JVal.null) = false) rows) :
    importTableRows schema now rows = Except.ok rows := by
  unfold importTableRows
  rcases rows with _ | ⟨r0, rest⟩
  · exact absurd rfl hne
  · have hc : r0.map Prod.fst = schema.map Col.name := hkeys r0 (by simp)
    dsimp only [List.headD]
    rw [hc]
    have := foldl_insert_full schema now hnd (r0 :: rest) [] hkeys hnn
      (fun r _ r0' h0 => absurd h0 (List.not_mem_nil r0')) hpw
    simpa using this

/-- Tables not in the import list keep their cached rows. -/
theorem importTables_db_other (t : String) :
    ∀ (ts : List String) (files : List (String × List Row)) (w : World),
    t ∉ ts →
    List.lookup t (importTables ts files w).2.db = List.lookup t w.db := by
  intro ts
  induction ts with
  | nil => intro files w _; rfl
  | cons t' ts ih =>
    intro files w hnot
    have hne : t ≠ t' := fun hcon => hnot (by simp [hcon])
    have hnt : t ∉ ts := fun hcon => hnot (by simp [hcon])
    unfold importTables
    split
    · exact ih files w hnt
    · exact ih files w hnt
    · split
      · rfl
      · rw [ih files _ hnt]
        exact lookup_setTable_ne w.db t' t _ hne

/-- If every listed table export imports cleanly, the whole import
succeeds. -/
theorem importTables_ok :
    ∀ (ts : List String) (files : List (String × List Row)) (w : World),
    (∀ t ∈ ts, fileImportOkB files w.now t = true) →
    (importTables ts files w).1 = Except.ok () := by
  intro ts
  induction ts with
  | nil => intro files w _; rfl
  | cons t ts ih =>
    intro files w hok
    unfold importTables
    rcases hlk : List.lookup t files with _ | rs
    · exact ih files w (fun t' ht' => hok t' (by simp [ht']))
    · rcases rs with _ | ⟨r, rs'⟩
      · exact ih files w (fun t' ht' => hok t' (by simp [ht']))
      · have h1 := hok t (by simp)
        unfold fileImportOkB at h1
        rw [hlk] at h1
        dsimp only at h1
        simp only [List.isEmpty_cons, Bool.false_or] at h1
        rcases himp : importTableRows (schemaOf t) w.now (r :: rs') with e | nt
        · rw [himp] at h1
          simp [Except.toBool] at h1
        · dsimp only
          rw [himp]
          exact ih files _ (fun t' ht' => hok t' (by simp [ht']))

/-- Importing a table list that contains a nonempty, cleanly-importing
table succeeds and leaves that table cache equal to its import. -/
theorem importTables_at (t₀ : String) (rs₀ out : List Row) (hne : rs₀ ≠ []) :
    ∀ (ts : List String) (files : List (String × List Row)) (w : World),
    t₀ ∈ ts →
    List.lookup t₀ files = some rs₀ →
    importTableRows (schemaOf t₀) w.now rs₀ = Except.ok out →
    (∀ t ∈ ts, fileImportOkB files w.now t = true) →
    (importTables ts files w).1 = Except.ok () ∧
    List.lookup t₀ (importTables ts files w).2.db = some out := by
  intro ts
  induction ts with
  | nil => intro files w hmem; exact absurd hmem (List.not_mem_nil t₀)
  | cons t ts ih =>
    intro files w hmem hfile himp hok
    unfold importTables
    rcases hlk : List.lookup t files with _ | rs
    · have ht₀ : t₀ ∈ ts := by
        rcases List.mem_cons.mp hmem with rfl | h
        · rw [hlk] at hfile; exact absurd hfile (by simp)
        · exact h
      exact ih files w ht₀ hfile himp (fun t' ht' => hok t' (by simp [ht']))
    · rcases rs with _ | ⟨r, rs'⟩
      · have ht₀ : t₀ ∈ ts := by
          rcases List.mem_cons.mp hmem with rfl | h
          · rw [hlk] at hfile
            injection hfile with he
            exact absurd he.symm hne
          · exact h
        exact ih files w ht₀ hfile himp (fun t' ht' => hok t' (by simp [ht']))
      · have h1 := hok t (by simp)
        unfold fileImportOkB at h1
        rw [hlk] at h1
        dsimp only at h1
        simp only [List.isEmpty_cons, Bool.false_or] at h1
        rcases hnt : importTableRows (schemaOf t) w.now (r :: rs') with e | nt
        · rw [hnt] at h1
          simp [Except.toBool] at h1
        · dsimp only
          rw [hnt]
          by_cases ht₀ : t₀ ∈ ts
          · exact ih files _ ht₀ hfile himp
              (fun t' ht' => hok t' (by simp [ht']))
          · have hte : t₀ = t := by
              rcases List.mem_cons.mp hmem with h | h
              · exact h
              · exact absurd h ht₀
            subst hte
            rw [hlk] at hfile
            injection hfile with he
            subst he
            rw [himp] at hnt
            injection hnt with hout
            subst hout
            refine ⟨importTables_ok ts files _
              (fun t' ht' => hok t' (by simp [ht'])), ?_⟩
            rw [importTables_db_other t₀ ts files _ ht₀]
            exact lookup_setTable_self w.db t₀ out

/-- C4 (amended): for every table and every NONEMPTY list of rows that
each carry exactly the table schema columns (created_at included),
with non-null values in NOT-NULL columns and pairwise distinct ids, in
a store whose other edit exports import cleanly, a successful
writeIntent followed by getDesired returns exactly the written rows,
ordered by id, with no fields added or dropped.  (For the empty list
the import skips the table, so getDesired keeps returning the cache
previous contents — see the counterexample.) -/
theorem writeIntent_getDesired_roundtrip (w : World) (table msg : String)
    (rows : List Row)
    (ht : table ∈ tableNames)
    (hne : rows ≠ [])
    (hkeys : ∀ r ∈ rows, r.map Prod.fst = (schemaOf table).map Col.name)
    (hnn : ∀ r ∈ rows, ((schemaOf table).all (fun sc =>
        !sc.notNull ||
          (List.lookup sc.name r).getD JVal.null ≠ JVal.null)) = true)
    (hpw : List.Pairwise (fun r1 r2 =>
        ((List.lookup "id" r1).getD JVal.null ==
         (List.lookup "id" r2).getD JVal.null) = false) rows)
    (hoth : ∀ t ∈ tableNames, t ≠ table →
        fileImportOkB w.git.editFiles w.now t = true) :
    (getResources "edit" table (writeToEdit table rows msg w).2).1 =
      Except.ok (sortByLe rowIdLe rows) := by
  have hnd : ((schemaOf table).map Col.name).Nodup := by
    have hm := ht
    simp only [tableNames, List.mem_cons, List.not_mem_nil, or_false] at hm
    rcases hm with rfl | rfl | rfl | rfl | rfl | rfl | rfl <;> decide
  have hcontains : tableNames.contains table = true := by
    simpa using List.elem_iff.mpr ht
  have hw2g : (writeToEdit table rows msg w).2.git.editFiles =
      setTable w.git.editFiles table rows := by
    unfold writeToEdit
    rw [if_pos hcontains]
  have hw2n : (writeToEdit table rows msg w).2.now = w.now := by
    unfold writeToEdit
    rw [if_pos hcontains]
  have hw2d : (writeToEdit table rows msg w).2.db = w.db := by
    unfold writeToEdit
    rw [if_pos hcontains]
  have himp : importTableRows (schemaOf table) w.now rows = Except.ok rows :=
    importTableRows_id (schemaOf table) w.now rows hne hnd hkeys hnn hpw
  have hokAll : ∀ t ∈ tableNames,
      fileImportOkB (setTable w.git.editFiles table rows) w.now t = true := by
    intro t htm
    by_cases hteq : t = table
    · subst hteq
      unfold fileImportOkB
      rw [lookup_setTable_self]
      dsimp only
      rw [himp]
      rcases rows with _ | ⟨r, rs⟩
      · exact absurd rfl hne
      · rfl
    · unfold fileImportOkB
      rw [lookup_setTable_ne w.git.editFiles table t rows hteq]
      exact hoth t htm hteq
  have hat := importTables_at table rows rows hne tableNames
    (setTable w.git.editFiles table rows) (writeToEdit table rows msg w).2
    ht (lookup_setTable_self _ _ _)
    (by rw [hw2n]; exact himp)
    (by rw [hw2n]; exact hokAll)
  unfold getResources importBranch
  have hbf : branchFiles "edit" (writeToEdit table rows msg w).2 =
      Except.ok (setTable w.git.editFiles table rows) := by
    unfold branchFiles
    rw [if_neg (by decide), if_pos (by decide)]
    rw [hw2g]
  rw [hbf]
  dsimp only
  rcases hit : importTables tableNames (setTable w.git.editFiles table rows)
      (writeToEdit table rows msg w).2 with ⟨res, w₃⟩
  rw [hit] at hat
  cases res with
  | error e => exact absurd hat.1 (by simp)
  | ok u =>
    dsimp only
    unfold selectOrdered
    rw [hat.2]

/-- Witness for C4 amended statement at a concrete full disk row on
the empty store. -/
theorem writeIntent_getDesired_roundtrip_witness :
    (getResources "edit" "disks"
        (writeToEdit "disks" [diskFullE] "add full disk" wE0).2).1 =
      Except.ok (sortByLe rowIdLe [diskFullE]) :=
  writeIntent_getDesired_roundtrip wE0 "disks" "add full disk" [diskFullE]
    (by decide) (by decide) (by decide) (by decide) (by decide) (by decide)
